import Mathlib

/-!
# Verification of the game micro-runtime core

Shallow embedding, in Lean 4, of the core subsystems of the
`electron-vite-pixi-game` repository:

* the fixed-step scheduler (`src/app/core/fixedStep.ts`),
* the input mapper (`src/app/input/input.ts`),
* the minimal entity-component store (`src/app/core/ecs.ts`),
* the spatial hash and the kinematic physics world
  (`src/app/physics/physics.ts`).

JavaScript numbers are modelled as rationals (`ℚ`); all the scenarios of
interest use values that are exact in binary floating point, so the
rational model agrees with the source on them.  JavaScript `Map`s are
modelled as association lists that update in place and append fresh keys
at the end (insertion order), and `Set`s as duplicate-free lists in
insertion order.  The `while` / `do … while` loops of the source are
embedded as fuelled recursions; in each case the fuel passed by the
embedding is proved sufficient (the loop reaches its exit condition
strictly before the fuel runs out), so the embedded function agrees with
the source loop.
-/

namespace GameCore



/-! ## Fixed-step scheduler (`fixedStep.ts`) -/

/-- State of the controller returned by `startFixedStep`.  The wall clock
(`lastTime` in the source) is externalised: each scheduler invocation is
given the elapsed wall-clock time `now - lastTime` directly. -/
structure FixedStepState where
  fixedDt : ℚ
  maxAccumulated : ℚ
  accumulator : ℚ
  paused : Bool
  stepsLastFrame : ℕ
deriving DecidableEq

/-- Source: `startFixedStep(ticker, stepFn, {hz, maxAccumulatedTime})`:
`fixedHz = Math.max(1, hz)`, `fixedDt = 1 / fixedHz`,
`accumulator = 0`, not paused. -/
def startFixedStep (hz maxAccumulatedTime : ℚ) : FixedStepState :=
  { fixedDt := 1 / max 1 hz
    maxAccumulated := maxAccumulatedTime
    accumulator := 0
    paused := false
    stepsLastFrame := 0 }

/-- The `while (accumulator >= fixedDt)` loop of `update`.  Returns the
list of arguments passed to `stepFn` (one entry per loop iteration, in
order) together with the final accumulator.  The fuel is chosen by
`update` and is proved sufficient in `spinAux_spec`. -/
def spinAux (fixedDt : ℚ) : ℕ → ℚ → List ℚ × ℚ
  | 0, acc => ([], acc)
  | fuel + 1, acc =>
      if fixedDt ≤ acc then
        let r := spinAux fixedDt fuel (acc - fixedDt)
        (fixedDt :: r.1, r.2)
      else ([], acc)

/-- One scheduler invocation (the `update` closure): if paused, only the
per-frame step counter is reset; otherwise the elapsed time is clamped to
`maxAccumulated`, added to the accumulator, and whole steps are consumed.
Returns the new state and the list of `stepFn` call arguments. -/
def update (s : FixedStepState) (elapsed : ℚ) : FixedStepState × List ℚ :=
  if s.paused then ({ s with stepsLastFrame := 0 }, [])
  else
    let frameElapsed := min s.maxAccumulated elapsed
    let acc := s.accumulator + frameElapsed
    let r := spinAux s.fixedDt ((⌊acc / s.fixedDt⌋).toNat + 1) acc
    ({ s with accumulator := r.2, stepsLastFrame := r.1.length }, r.1)

/-- Source: `controller.pause()`. -/
def pauseCtl (s : FixedStepState) : FixedStepState :=
  { s with paused := true }

/-- Source: `controller.resume()`; the wall-clock reference reset is externalised
(the next invocation's elapsed time starts from the resume instant). -/
def resumeCtl (s : FixedStepState) : FixedStepState :=
  { s with paused := false }

/-- An externally observable operation on the controller. -/
inductive SchedOp where
  | tick (elapsed : ℚ)
  | pauseOp
  | resumeOp
deriving DecidableEq

def applySchedOp (s : FixedStepState) : SchedOp → FixedStepState
  | .tick e => (update s e).1
  | .pauseOp => pauseCtl s
  | .resumeOp => resumeCtl s

def runSchedOps (s : FixedStepState) : List SchedOp → FixedStepState
  | [] => s
  | op :: rest => runSchedOps (applySchedOp s op) rest

/-- Run a sequence of unpaused scheduler invocations, collecting all
`stepFn` call arguments in order. -/
def runTicks (s : FixedStepState) : List ℚ → FixedStepState × List ℚ
  | [] => (s, [])
  | e :: rest =>
      let r := update s e
      let t := runTicks r.1 rest
      (t.1, r.2 ++ t.2)

/-! ## Input mapper (`input.ts`)

Actions are an arbitrary type with decidable equality (strings in the
source).  The three JavaScript `Set`s (`held`, `pressed`, `released`) are
duplicate-free lists in insertion order; `setAdd` is `Set.add` (append if
absent). -/

/-- Source: `Set.add`: append the element unless already present. -/
def setAdd {α : Type} [DecidableEq α] (l : List α) (a : α) : List α :=
  if a ∈ l then l else l ++ [a]

/-- Internal state of the mapper created by `createInputMapper`:
the normalized binding table (`code ↦ list of (action, preventDefault)`,
codes are opaque; we use `ℕ`) and the three action sets. -/
structure InputMapperState (α : Type) where
  keyboardBindings : List (ℕ × List (α × Bool))
  held : List α
  pressed : List α
  released : List α

/-- The `keydown` listener: for each binding of the code, add the action
to `held`, and to `pressed` only on the absent-to-present transition. -/
def handleKeyDown {α : Type} [DecidableEq α]
    (m : InputMapperState α) (code : ℕ) : InputMapperState α :=
  match (m.keyboardBindings.filter (fun b => b.1 = code)).head? with
  | none => m
  | some specs =>
      specs.2.foldl (fun acc spec =>
        if spec.1 ∈ acc.held then acc
        else { acc with
                held := setAdd acc.held spec.1
                pressed := setAdd acc.pressed spec.1 }) m

/-- The `keyup` listener: remove from `held`, and add to `released` only
on the present-to-absent transition. -/
def handleKeyUp {α : Type} [DecidableEq α]
    (m : InputMapperState α) (code : ℕ) : InputMapperState α :=
  match (m.keyboardBindings.filter (fun b => b.1 = code)).head? with
  | none => m
  | some specs =>
      specs.2.foldl (fun acc spec =>
        if spec.1 ∈ acc.held then
          { acc with
              held := acc.held.erase spec.1
              released := setAdd acc.released spec.1 }
        else acc) m

/-- A polled snapshot: `held`, `pressed` and `released` action sets. -/
structure InputSnapshot (α : Type) where
  held : List α
  pressed : List α
  released : List α
deriving DecidableEq

/-- Source: `poll()`: snapshot the three sets, then clear the `pressed` and
`released` accumulators (`held` is untouched). -/
def poll {α : Type} (m : InputMapperState α) :
    InputSnapshot α × InputMapperState α :=
  (⟨m.held, m.pressed, m.released⟩, { m with pressed := [], released := [] })

/-! ## Entity stores (`ecs.ts`)

`World` entity lifecycle: `alive` is a JavaScript `Set` of entity ids,
`stores` maps a component id to a `Map` from entity id to payload.  Only
the lifecycle operations relevant to the claims are embedded; payloads
are an arbitrary type. -/

/-- The ECS `World`, with component payloads of type `δ`. -/
structure EcsWorld (δ : Type) where
  nextEntity : ℕ
  alive : List ℕ
  stores : List (ℕ × List (ℕ × δ))
deriving DecidableEq

/-- A fresh `World`. -/
def emptyEcsWorld (δ : Type) : EcsWorld δ :=
  { nextEntity := 1, alive := [], stores := [] }

/-- Source: `World.createEntity`. -/
def createEntity {δ : Type} (w : EcsWorld δ) : ℕ × EcsWorld δ :=
  (w.nextEntity,
   { w with nextEntity := w.nextEntity + 1, alive := w.alive ++ [w.nextEntity] })

/-- Source: `World.destroyEntity`: `if (!this.alive.delete(entity)) return;` —
when the entity is not alive the method returns immediately (silent
no-op); otherwise the entity is removed from `alive` and every component
store. -/
def destroyEntity {δ : Type} (w : EcsWorld δ) (entity : ℕ) : EcsWorld δ :=
  if entity ∈ w.alive then
    { w with
        alive := w.alive.erase entity
        stores := w.stores.map (fun st => (st.1, st.2.filter (fun p => p.1 ≠ entity))) }
  else w

/-! ## Physics world and spatial hash (`physics.ts`)

Positions, sizes and velocities are rationals.  The spatial-hash cell
keys, written as the template string `x:y` in the source (an injective
encoding of the integer pair), are modelled directly as pairs `ℤ × ℤ`. -/

/-- An axis-aligned bounding box; position is the top-left corner. -/
structure AABB where
  x : ℚ
  y : ℚ
  width : ℚ
  height : ℚ
deriving DecidableEq

/-- Source: `aabbOverlap`: strict overlap test (touching edges do not overlap). -/
def aabbOverlap (a b : AABB) : Bool :=
  !(decide (a.x + a.width ≤ b.x) || decide (b.x + b.width ≤ a.x) ||
    decide (a.y + a.height ≤ b.y) || decide (b.y + b.height ≤ a.y))

/-- A dynamic body (the mutable live handle of the source). -/
structure DynamicBody where
  id : ℕ
  x : ℚ
  y : ℚ
  width : ℚ
  height : ℚ
  vx : ℚ
  vy : ℚ
  ax : ℚ
  ay : ℚ
  gravityScale : ℚ
  onGround : Bool
deriving DecidableEq

/-- A static body. -/
structure StaticBody where
  id : ℕ
  x : ℚ
  y : ℚ
  width : ℚ
  height : ℚ
deriving DecidableEq

def DynamicBody.aabb (b : DynamicBody) : AABB :=
  ⟨b.x, b.y, b.width, b.height⟩

def StaticBody.aabb (s : StaticBody) : AABB :=
  ⟨s.x, s.y, s.width, s.height⟩

/-- Source: `count` consecutive integers starting at `lo`. -/
def rangeIntsAux (lo : ℤ) : ℕ → List ℤ
  | 0 => []
  | n + 1 => lo :: rangeIntsAux (lo + 1) n

/-- The integers from `lo` to `hi` inclusive (empty when `hi < lo`):
the ranges of the two `for` loops in `keysFor`. -/
def rangeInts (lo hi : ℤ) : List ℤ :=
  rangeIntsAux lo (hi + 1 - lo).toNat

/-- Source: `SpatialHash.keysFor`: every cell key the AABB's bounding rectangle
touches, outer loop over `x`, inner loop over `y`. -/
def keysFor (cellSize : ℚ) (bounds : AABB) : List (ℤ × ℤ) :=
  (rangeInts ⌊bounds.x / cellSize⌋ ⌊(bounds.x + bounds.width) / cellSize⌋).flatMap
    (fun cx =>
      (rangeInts ⌊bounds.y / cellSize⌋ ⌊(bounds.y + bounds.height) / cellSize⌋).map
        (fun cy => (cx, cy)))

/-- First value bound to a key in an association list (JavaScript `Map`
lookup; keys are unique in every map the embedding builds). -/
def lookupEntry {K V : Type} [DecidableEq K] : List (K × V) → K → Option V
  | [], _ => none
  | e :: rest, k => if e.1 = k then some e.2 else lookupEntry rest k

/-- Source: `Map.set`: replace the value of an existing key in place, otherwise
append the new entry (JavaScript insertion order). -/
def setEntry {K V : Type} [DecidableEq K] : List (K × V) → K → V → List (K × V)
  | [], k, v => [(k, v)]
  | e :: rest, k, v => if e.1 = k then (k, v) :: rest else e :: setEntry rest k v

/-- Source: `Map.delete`: drop the entry with the given key, if present. -/
def eraseEntry {K V : Type} [DecidableEq K] : List (K × V) → K → List (K × V)
  | [], _ => []
  | e :: rest, k => if e.1 = k then rest else e :: eraseEntry rest k

/-- The `SpatialHash<T>` class: fixed cell size and the
`Map<string, Set<T>>` of cells. -/
structure SpatialHash (T : Type) where
  cellSize : ℚ
  cells : List ((ℤ × ℤ) × List T)
deriving DecidableEq

/-- The bucket stored under a key (empty when the key is absent — the
same observable membership). -/
def SpatialHash.bucketOf {T : Type} (h : SpatialHash T) (k : ℤ × ℤ) : List T :=
  (lookupEntry h.cells k).getD []

/-- The per-key body of the `add` loop: ensure the bucket exists and add
the item to it. -/
def addCellStep {T : Type} [DecidableEq T] (item : T)
    (cs : List ((ℤ × ℤ) × List T)) (k : ℤ × ℤ) : List ((ℤ × ℤ) × List T) :=
  setEntry cs k (setAdd ((lookupEntry cs k).getD []) item)

/-- Source: `SpatialHash.add`: insert the item into the bucket of every key of
its AABB, creating buckets as needed. -/
def SpatialHash.add {T : Type} [DecidableEq T] (bounds : T → AABB)
    (h : SpatialHash T) (item : T) : SpatialHash T :=
  { h with
      cells := (keysFor h.cellSize (bounds item)).foldl (addCellStep item) h.cells }

/-- The per-key body of the `remove` loop: skip absent buckets, delete
the item, and drop the bucket if it became empty. -/
def removeCellStep {T : Type} [DecidableEq T] (item : T)
    (cs : List ((ℤ × ℤ) × List T)) (k : ℤ × ℤ) : List ((ℤ × ℤ) × List T) :=
  match lookupEntry cs k with
  | none => cs
  | some bucket =>
      if (bucket.erase item).isEmpty then eraseEntry cs k
      else setEntry cs k (bucket.erase item)

/-- Source: `SpatialHash.remove`: delete the item from the bucket of every key of
its AABB, dropping buckets that become empty. -/
def SpatialHash.remove {T : Type} [DecidableEq T] (bounds : T → AABB)
    (h : SpatialHash T) (item : T) : SpatialHash T :=
  { h with
      cells := (keysFor h.cellSize (bounds item)).foldl (removeCellStep item) h.cells }

/-- The per-key body of the `query` loop: fold the bucket of the key into
the result set. -/
def queryCellStep {T : Type} [DecidableEq T] (cells : List ((ℤ × ℤ) × List T))
    (results : List T) (k : ℤ × ℤ) : List T :=
  match lookupEntry cells k with
  | none => results
  | some bucket => bucket.foldl setAdd results

/-- Source: `SpatialHash.query`: the deduplicated union of the buckets of every
key the query AABB touches, in insertion order. -/
def SpatialHash.query {T : Type} [DecidableEq T]
    (h : SpatialHash T) (area : AABB) : List T :=
  (keysFor h.cellSize area).foldl (queryCellStep h.cells) []

/-- Every item stored in some bucket (with multiplicity); used only as a
loop budget and a candidate pool in proofs. -/
def SpatialHash.allItems {T : Type} (h : SpatialHash T) : List T :=
  (h.cells.map Prod.snd).flatten

/-- Source: `PhysicsWorldOptions` (`cellSize ?? 256`, `gravity.x ?? 0`,
`gravity.y ?? 0` applied at construction). -/
structure PhysicsWorldOptions where
  cellSize : Option ℚ := none
  gravityX : Option ℚ := none
  gravityY : Option ℚ := none

/-- The closure state of `createPhysicsWorld`. -/
structure PhysicsWorld where
  cellSize : ℚ
  gravityX : ℚ
  gravityY : ℚ
  nextId : ℕ
  dynamicBodies : List (ℕ × DynamicBody)
  staticBodies : List (ℕ × StaticBody)
  spatialHash : SpatialHash StaticBody
deriving DecidableEq

/-- Source: `createPhysicsWorld(options)`. -/
def createPhysicsWorld (options : PhysicsWorldOptions) : PhysicsWorld :=
  { cellSize := options.cellSize.getD 256
    gravityX := options.gravityX.getD 0
    gravityY := options.gravityY.getD 0
    nextId := 1
    dynamicBodies := []
    staticBodies := []
    spatialHash := { cellSize := options.cellSize.getD 256, cells := [] } }

structure StaticBodyInit where
  x : ℚ
  y : ℚ
  width : ℚ
  height : ℚ
deriving DecidableEq

structure DynamicBodyInit where
  x : ℚ
  y : ℚ
  width : ℚ
  height : ℚ
  vx : Option ℚ := none
  vy : Option ℚ := none
  ax : Option ℚ := none
  ay : Option ℚ := none
  gravityScale : Option ℚ := none
deriving DecidableEq

/-- Source: `addStaticBody`: allocate the next id, register the body and index it
in the spatial hash. -/
def addStaticBody (w : PhysicsWorld) (init : StaticBodyInit) :
    StaticBody × PhysicsWorld :=
  let body : StaticBody :=
    { id := w.nextId, x := init.x, y := init.y
      width := init.width, height := init.height }
  (body,
   { w with
      nextId := w.nextId + 1
      staticBodies := setEntry w.staticBodies body.id body
      spatialHash := w.spatialHash.add StaticBody.aabb body })

/-- Source: `addDynamicBody`: allocate the next id and register the body with the
source's defaults (`vx = vy = ax = ay = 0`, `gravityScale = 1`,
`onGround = false`). -/
def addDynamicBody (w : PhysicsWorld) (init : DynamicBodyInit) :
    DynamicBody × PhysicsWorld :=
  let body : DynamicBody :=
    { id := w.nextId, x := init.x, y := init.y
      width := init.width, height := init.height
      vx := init.vx.getD 0, vy := init.vy.getD 0
      ax := init.ax.getD 0, ay := init.ay.getD 0
      gravityScale := init.gravityScale.getD 1
      onGround := false }
  (body,
   { w with
      nextId := w.nextId + 1
      dynamicBodies := setEntry w.dynamicBodies body.id body })

/-- Source: `removeDynamicBody`: `dynamicBodies.delete(id)` — no liveness check,
no error; deleting an absent id is a silent no-op. -/
def removeDynamicBody (w : PhysicsWorld) (id : ℕ) : PhysicsWorld :=
  { w with dynamicBodies := eraseEntry w.dynamicBodies id }

/-- Source: `clear()`: empties both body maps and resets the id counter.  The
spatial hash is not touched. -/
def PhysicsWorld.clear (w : PhysicsWorld) : PhysicsWorld :=
  { w with dynamicBodies := [], staticBodies := [], nextId := 1 }

/-- Source: `queryStatics` (`Array.from(spatialHash.query(body))`). -/
def queryStatics (w : PhysicsWorld) (body : AABB) : List StaticBody :=
  w.spatialHash.query body

/-- Source: `getStaticBodies()` (map values in insertion order). -/
def getStaticBodies (w : PhysicsWorld) : List StaticBody :=
  w.staticBodies.map Prod.snd

/-- Source: `getDynamicBodies()` (map values in insertion order). -/
def getDynamicBodies (w : PhysicsWorld) : List DynamicBody :=
  w.dynamicBodies.map Prod.snd

/-- The resolution axis of `resolveAxis`. -/
inductive Axis where
  | x
  | y
deriving DecidableEq

/-- The push applied by `resolveAxis` to an overlapping solid: snap the
body flush to the solid's near edge against the direction of travel, zero
the velocity component, and set `onGround` on a downward landing. -/
def pushBody (delta : ℚ) (axis : Axis) (body : DynamicBody)
    (solid : StaticBody) : DynamicBody :=
  match axis with
  | .x =>
      if 0 < delta then { body with x := solid.x - body.width, vx := 0 }
      else { body with x := solid.x + solid.width, vx := 0 }
  | .y =>
      if 0 < delta then
        { body with y := solid.y - body.height, vy := 0, onGround := true }
      else { body with y := solid.y + solid.height, vy := 0 }

/-- The body of the `for (const solid of statics)` loop: skip solids the
(current) body does not overlap, otherwise push and record the
collision. -/
def scanStep (delta : ℚ) (axis : Axis) (acc : DynamicBody × Bool)
    (solid : StaticBody) : DynamicBody × Bool :=
  if aabbOverlap acc.1.aabb solid.aabb then (pushBody delta axis acc.1 solid, true)
  else acc

/-- One iteration of the `do … while (collided)` loop: query the hash at
the body's current AABB and scan the candidates. -/
def resolvePass (h : SpatialHash StaticBody) (delta : ℚ) (axis : Axis)
    (body : DynamicBody) : DynamicBody × Bool :=
  (h.query body.aabb).foldl (scanStep delta axis) (body, false)

/-- The `do … while (collided)` loop, fuelled; `resolveAxis` passes fuel
`allItems.length + 1`, proved sufficient in the fixed-point theorem. -/
def resolveLoop (h : SpatialHash StaticBody) (delta : ℚ) (axis : Axis) :
    ℕ → DynamicBody → DynamicBody
  | 0, body => body
  | fuel + 1, body =>
      let r := resolvePass h delta axis body
      if r.2 then resolveLoop h delta axis fuel r.1 else r.1

/-- The `body.x += delta` / `body.y += delta` move at the top of
`resolveAxis`. -/
def moveBody (axis : Axis) (delta : ℚ) (body : DynamicBody) : DynamicBody :=
  match axis with
  | .x => { body with x := body.x + delta }
  | .y => { body with y := body.y + delta }

/-- Source: `resolveAxis(body, delta, axis)`. -/
def resolveAxis (w : PhysicsWorld) (body : DynamicBody) (delta : ℚ)
    (axis : Axis) : DynamicBody :=
  if delta = 0 then body
  else resolveLoop w.spatialHash delta axis (w.spatialHash.allItems.length + 1)
    (moveBody axis delta body)

/-- The per-body work of `step(dt)`: integrate velocities, resolve the x
axis, reset `onGround`, resolve the y axis. -/
def stepBody (w : PhysicsWorld) (dt : ℚ) (body : DynamicBody) : DynamicBody :=
  let vx := body.vx + (body.ax + w.gravityX) * dt
  let vy := body.vy + (body.ay + w.gravityY * body.gravityScale) * dt
  let b0 := { body with vx := vx, vy := vy }
  let dx := vx * dt
  let dy := vy * dt
  let b1 := if dx ≠ 0 then resolveAxis w b0 dx Axis.x else b0
  let b2 := { b1 with onGround := false }
  if dy ≠ 0 then resolveAxis w b2 dy Axis.y else b2

/-- Source: `step(dt)`: no-op for `dt <= 0`, otherwise advance every dynamic body
(bodies interact only with static geometry, so the per-body update is
independent). -/
def step (w : PhysicsWorld) (dt : ℚ) : PhysicsWorld :=
  if dt ≤ 0 then w
  else { w with dynamicBodies := w.dynamicBodies.map (fun e => (e.1, stepBody w dt e.2)) }

/-- A world operation other than `clear()`, for the id-allocation
claims. -/
inductive PhysOp where
  | addDyn (init : DynamicBodyInit)
  | addStat (init : StaticBodyInit)
  | removeDyn (id : ℕ)
deriving DecidableEq

/-- Apply one operation, returning the ids handed out by it. -/
def applyPhysOp (w : PhysicsWorld) : PhysOp → PhysicsWorld × List ℕ
  | .addDyn init => ((addDynamicBody w init).2, [(addDynamicBody w init).1.id])
  | .addStat init => ((addStaticBody w init).2, [(addStaticBody w init).1.id])
  | .removeDyn i => (removeDynamicBody w i, [])

/-- Run a sequence of operations, collecting all handed-out ids in
order. -/
def runPhysOps (w : PhysicsWorld) : List PhysOp → PhysicsWorld × List ℕ
  | [] => (w, [])
  | op :: rest =>
      let r := applyPhysOp w op
      let t := runPhysOps r.1 rest
      (t.1, r.2 ++ t.2)

/-- The spec's example scenario: dynamic body
`{x:0, y:0, width:10, height:10, vx:100, vy:0}` and static body
`{x:15, y:0, width:10, height:10}` in a default world. -/
def exampleWorldFast : PhysicsWorld :=
  (addDynamicBody
    ((addStaticBody (createPhysicsWorld {})
      { x := 15, y := 0, width := 10, height := 10 }).2)
    { x := 0, y := 0, width := 10, height := 10, vx := some 100 }).2

/-- The example scenario with `vx = 10` instead of `100`, keeping the
per-step displacement within the body's own size. -/
def exampleWorldSlow : PhysicsWorld :=
  (addDynamicBody
    ((addStaticBody (createPhysicsWorld {})
      { x := 15, y := 0, width := 10, height := 10 }).2)
    { x := 0, y := 0, width := 10, height := 10, vx := some 10 }).2

/-- A static body added, then the world cleared: the body map is empty
but the broadphase still indexes the static. -/
def clearedWorld : PhysicsWorld :=
  PhysicsWorld.clear
    ((addStaticBody (createPhysicsWorld {})
      { x := 15, y := 0, width := 10, height := 10 }).2)

/-- A dynamic body added after the clear, moving toward the stale static
geometry. -/
def clearedWorldWithBody : PhysicsWorld :=
  (addDynamicBody clearedWorld
    { x := 0, y := 0, width := 10, height := 10, vx := some 10 }).2

/-- A spatial-hash cell, as a region of the plane: the set of points
whose coordinates floor-divide to the key.  `cellOverlap` says the closed
box shares at least one point with the cell. -/
def cellOverlap (cellSize : ℚ) (bounds : AABB) (k : ℤ × ℤ) : Prop :=
  ∃ p q : ℚ, bounds.x ≤ p ∧ p ≤ bounds.x + bounds.width ∧
    bounds.y ≤ q ∧ q ≤ bounds.y + bounds.height ∧
    ⌊p / cellSize⌋ = k.1 ∧ ⌊q / cellSize⌋ = k.2

/-! ### Termination and fixed point of the `resolveAxis` loop -/

/-- The coordinate of the body on the resolution axis. -/
def axisCoord : Axis → DynamicBody → ℚ
  | .x, b => b.x
  | .y, b => b.y

/-- The coordinate a push against `s` lands the body at (depends on the
body only through its size, which pushes never change). -/
def landingCoord (axis : Axis) (delta : ℚ) (b : DynamicBody)
    (s : StaticBody) : ℚ :=
  match axis with
  | .x => if 0 < delta then s.x - b.width else s.x + s.width
  | .y => if 0 < delta then s.y - b.height else s.y + s.height

/-- Loop variant for the `do … while (collided)` iteration: the number of
stored statics whose landing coordinate lies strictly beyond the body's
current coordinate in the push direction. -/
def loopMeasure (h : SpatialHash StaticBody) (axis : Axis) (delta : ℚ)
    (b : DynamicBody) : ℕ :=
  if 0 < delta then
    (h.allItems.filter
      (fun s => decide (landingCoord axis delta b s < axisCoord axis b))).length
  else
    (h.allItems.filter
      (fun s => decide (axisCoord axis b < landingCoord axis delta b s))).length

/-- A hash `supports` a static set `S` when every member of `S` is fully
indexed under all of its keys, and every stored bucket member belongs to
`S` (true of the physics world's hash with `S` the added statics). -/
def hashSupports (h : SpatialHash StaticBody) (S : List StaticBody) : Prop :=
  (∀ s ∈ S, ∀ k ∈ keysFor h.cellSize s.aabb, s ∈ h.bucketOf k) ∧
  (∀ e ∈ h.cells, ∀ s ∈ e.2, s ∈ S)

/-- Two non-overlapping static blocks on the x axis. -/
def wedgeWorld : PhysicsWorld :=
  (addStaticBody
    ((addStaticBody (createPhysicsWorld {})
      { x := 20, y := 0, width := 10, height := 10 }).2)
    { x := 32, y := 0, width := 10, height := 10 }).2

/-- A body wide enough to overlap both blocks after moving right by
`20`. -/
def wedgeBody : DynamicBody :=
  { id := 9, x := 0, y := 0, width := 15, height := 10, vx := 0, vy := 0,
    ax := 0, ay := 0, gravityScale := 1, onGround := false }

/-! ## Theorems -/

theorem spinAux_spec (fd : ℚ) (hfd : 0 < fd) :
    ∀ (fuel : ℕ) (acc : ℚ), (⌊acc / fd⌋).toNat < fuel →
      (spinAux fd fuel acc).2 = acc - (spinAux fd fuel acc).1.length * fd ∧
      (spinAux fd fuel acc).2 < fd ∧
      (∀ a ∈ (spinAux fd fuel acc).1, a = fd) ∧
      (0 ≤ acc → 0 ≤ (spinAux fd fuel acc).2) := by
  intro fuel
  induction fuel with
  | zero => intro acc h; exact absurd h (Nat.not_lt_zero _)
  | succ n ih =>
      intro acc hfuel
      by_cases hle : fd ≤ acc
      · have hne : fd ≠ 0 := ne_of_gt hfd
        have hdiv : (acc - fd) / fd = acc / fd - 1 := by
          field_simp
        have hfloor : ⌊(acc - fd) / fd⌋ = ⌊acc / fd⌋ - 1 := by
          rw [hdiv]
          have : acc / fd - 1 = acc / fd - ((1 : ℤ) : ℚ) := by push_cast; ring
          rw [this, Int.floor_sub_int]
        have hone : (1 : ℤ) ≤ ⌊acc / fd⌋ := by
          rw [Int.le_floor]
          push_cast
          exact (one_le_div hfd).2 hle
        have hfuel' : (⌊(acc - fd) / fd⌋).toNat < n := by
          rw [hfloor]
          omega
        have hres := ih (acc - fd) hfuel'
        have hspin : spinAux fd (n + 1) acc =
            (fd :: (spinAux fd n (acc - fd)).1, (spinAux fd n (acc - fd)).2) := by
          simp [spinAux, hle]
        rw [hspin]
        refine ⟨?_, hres.2.1, ?_, ?_⟩
        · simp only [List.length_cons]
          rw [hres.1]
          push_cast
          ring
        · intro a ha
          rcases List.mem_cons.1 ha with h | h
          · exact h
          · exact hres.2.2.1 a h
        · intro _
          exact hres.2.2.2 (by linarith)
      · have hspin : spinAux fd (n + 1) acc = ([], acc) := by
          simp [spinAux, hle]
        rw [hspin]
        refine ⟨by simp, by simpa using lt_of_not_le hle, by simp, fun h => h⟩

theorem fixedDt_pos (hz maxAccumulatedTime : ℚ) :
    0 < (startFixedStep hz maxAccumulatedTime).fixedDt := by
  show 0 < 1 / max 1 hz
  exact div_pos one_pos (lt_of_lt_of_le one_pos (le_max_left _ _))

theorem update_spec (s : FixedStepState) (e : ℚ)
    (hp : s.paused = false) (hfd : 0 < s.fixedDt) :
    ((update s e).1).fixedDt = s.fixedDt ∧
    ((update s e).1).maxAccumulated = s.maxAccumulated ∧
    ((update s e).1).paused = s.paused ∧
    ((update s e).1).accumulator =
      s.accumulator + min s.maxAccumulated e - (update s e).2.length * s.fixedDt ∧
    ((update s e).1).accumulator < s.fixedDt ∧
    (∀ a ∈ (update s e).2, a = s.fixedDt) ∧
    (0 ≤ s.accumulator + min s.maxAccumulated e → 0 ≤ ((update s e).1).accumulator) ∧
    ((update s e).1).stepsLastFrame = (update s e).2.length := by
  have hspec := spinAux_spec s.fixedDt hfd
    ((⌊(s.accumulator + min s.maxAccumulated e) / s.fixedDt⌋).toNat + 1)
    (s.accumulator + min s.maxAccumulated e) (Nat.lt_succ_self _)
  have hu : update s e =
      ({ s with
          accumulator := (spinAux s.fixedDt
            ((⌊(s.accumulator + min s.maxAccumulated e) / s.fixedDt⌋).toNat + 1)
            (s.accumulator + min s.maxAccumulated e)).2,
          stepsLastFrame := (spinAux s.fixedDt
            ((⌊(s.accumulator + min s.maxAccumulated e) / s.fixedDt⌋).toNat + 1)
            (s.accumulator + min s.maxAccumulated e)).1.length },
        (spinAux s.fixedDt
          ((⌊(s.accumulator + min s.maxAccumulated e) / s.fixedDt⌋).toNat + 1)
          (s.accumulator + min s.maxAccumulated e)).1) := by
    simp [update, hp]
  rw [hu]
  exact ⟨rfl, rfl, rfl, hspec.1, hspec.2.1, hspec.2.2.1, hspec.2.2.2, rfl⟩

theorem spinAux_of_lt (fd acc : ℚ) (fuel : ℕ) (h : acc < fd) :
    spinAux fd (fuel + 1) acc = ([], acc) := by
  simp [spinAux, not_le.2 h]

theorem runTicks_inv :
    ∀ (es : List ℚ) (s : FixedStepState),
      s.paused = false → 0 < s.fixedDt →
      0 ≤ s.accumulator → s.accumulator < s.fixedDt →
      (∀ e ∈ es, 0 ≤ e ∧ e ≤ s.maxAccumulated) →
      (runTicks s es).1.fixedDt = s.fixedDt ∧
      (runTicks s es).1.paused = false ∧
      0 ≤ (runTicks s es).1.accumulator ∧
      (runTicks s es).1.accumulator < s.fixedDt ∧
      (runTicks s es).1.accumulator + (runTicks s es).2.length * s.fixedDt
        = s.accumulator + es.sum ∧
      (∀ a ∈ (runTicks s es).2, a = s.fixedDt) := by
  intro es
  induction es with
  | nil =>
      intro s hp hfd h0 h1 _
      refine ⟨rfl, hp, h0, h1, by simp [runTicks], by simp [runTicks]⟩
  | cons e rest ih =>
      intro s hp hfd h0 h1 hes
      have he := hes e (List.mem_cons_self _ _)
      have hmin : min s.maxAccumulated e = e := min_eq_right he.2
      have hu := update_spec s e hp hfd
      set s1 := (update s e).1 with hs1
      have hfd1 : 0 < s1.fixedDt := by rw [hu.1]; exact hfd
      have hp1 : s1.paused = false := by rw [hu.2.2.1, hp]
      have h01 : 0 ≤ s1.accumulator := by
        apply hu.2.2.2.2.2.2.1
        rw [hmin]
        linarith [he.1]
      have h11 : s1.accumulator < s1.fixedDt := by rw [hu.1]; exact hu.2.2.2.2.1
      have hrest : ∀ x ∈ rest, 0 ≤ x ∧ x ≤ s1.maxAccumulated := by
        intro x hx
        rw [hu.2.1]
        exact hes x (List.mem_cons_of_mem _ hx)
      have ihr := ih s1 hp1 hfd1 h01 h11 hrest
      have hrt : runTicks s (e :: rest)
          = ((runTicks s1 rest).1, (update s e).2 ++ (runTicks s1 rest).2) := by
        simp [runTicks]
      rw [hrt]
      have hfd1' : (runTicks s1 rest).1.fixedDt = s.fixedDt := by rw [ihr.1, hu.1]
      refine ⟨hfd1', ihr.2.1, ihr.2.2.1, by rw [← hu.1]; exact ihr.2.2.2.1, ?_, ?_⟩
      · have hsum1 := ihr.2.2.2.2.1
        have hacc1 := hu.2.2.2.1
        rw [hmin] at hacc1
        rw [hu.1] at hsum1
        simp only [List.length_append, List.sum_cons]
        push_cast
        linarith [hsum1, hacc1]
      · intro a ha
        rcases List.mem_append.1 ha with h | h
        · exact hu.2.2.2.2.2.1 a h
        · rw [ihr.2.2.2.2.2 a h]; exact hu.1

/-- C3: on an unpaused controller, for any sequence of invocations whose
elapsed times are non-negative and at most `maxAccumulatedTime` and sum to
exactly `n * fixedDelta`, `stepFn` is invoked exactly `n` times in total,
each time with argument `fixedDelta`, however the total is fragmented. -/
theorem scheduler_step_count_exact (hz mAcc : ℚ) (es : List ℚ) (n : ℕ)
    (helapsed : ∀ e ∈ es, 0 ≤ e ∧ e ≤ mAcc)
    (hsum : es.sum = n * (startFixedStep hz mAcc).fixedDt) :
    ((runTicks (startFixedStep hz mAcc) es).2).length = n ∧
    ∀ a ∈ (runTicks (startFixedStep hz mAcc) es).2,
      a = (startFixedStep hz mAcc).fixedDt := by
  have hfd := fixedDt_pos hz mAcc
  have hinv := runTicks_inv es (startFixedStep hz mAcc) rfl hfd le_rfl hfd helapsed
  refine ⟨?_, hinv.2.2.2.2.2⟩
  have hacc0 := hinv.2.2.1
  have hacc1 := hinv.2.2.2.1
  have hbal := hinv.2.2.2.2.1
  set fd := (startFixedStep hz mAcc).fixedDt
  set len := ((runTicks (startFixedStep hz mAcc) es).2).length
  have hacc : (runTicks (startFixedStep hz mAcc) es).1.accumulator
      = (n : ℚ) * fd - (len : ℚ) * fd := by
    have : (startFixedStep hz mAcc).accumulator = 0 := rfl
    rw [this, hsum] at hbal
    linarith
  have hle : (len : ℚ) * fd ≤ (n : ℚ) * fd := by
    rw [hacc] at hacc0; linarith
  have hlt : (n : ℚ) * fd < ((len : ℚ) + 1) * fd := by
    rw [hacc] at hacc1; nlinarith
  have h1 : (len : ℚ) ≤ (n : ℚ) := le_of_mul_le_mul_right hle hfd
  have h2 : (n : ℚ) < (len : ℚ) + 1 := lt_of_mul_lt_mul_right hlt hfd.le
  have h1' : len ≤ n := by exact_mod_cast h1
  have h2' : n < len + 1 := by exact_mod_cast h2
  omega

/-- C3 witness: three invocations totalling two fixed steps. -/
theorem scheduler_step_count_exact_witness :
    ((runTicks (startFixedStep 60 (1/4)) [1/60, 1/120, 1/120]).2).length = 2 :=
  (scheduler_step_count_exact 60 (1/4) [1/60, 1/120, 1/120] 2
    (by intro e he; fin_cases he <;> norm_num)
    (by norm_num [startFixedStep])).1

/-- C4 counterexample: controller with `hz = 1` (so `fixedDelta = 1`) and
`maxAccumulatedTime = 3/2`.  A first invocation with elapsed `9/10` leaves
`9/10` in the accumulator; a second invocation with elapsed `10` is
clamped to `3/2`, so the accumulator reaches `12/5` and the loop performs
`2` steps, exceeding `floor(maxAccumulatedTime / fixedDelta) = 1`. -/
theorem scheduler_spike_clamp_cex :
    ((update ((update (startFixedStep 1 (3/2)) (9/10)).1) 10).2).length = 2 ∧
    (⌊(startFixedStep 1 (3/2)).maxAccumulated /
        (startFixedStep 1 (3/2)).fixedDt⌋).toNat = 1 := by
  constructor
  · norm_num [update, spinAux, startFixedStep, min_def, max_def]
  · norm_num [startFixedStep, max_def]

/-- C4 amended: for a single unpaused invocation whose prior accumulator
lies in `[0, fixedDelta)` (which holds after every invocation, see the
accumulator invariant), the number of `stepFn` calls is at most
`ceil(maxAccumulatedTime / fixedDelta)`, whatever the elapsed time; the
stated `floor` bound holds only when `fixedDelta` divides
`maxAccumulatedTime` (e.g. the defaults `0.25` and `1/60`). -/
theorem scheduler_spike_clamp (s : FixedStepState) (elapsed : ℚ)
    (hp : s.paused = false) (hfd : 0 < s.fixedDt)
    (hacc0 : 0 ≤ s.accumulator) (hacc1 : s.accumulator < s.fixedDt) :
    ((update s elapsed).2).length ≤ (⌈s.maxAccumulated / s.fixedDt⌉).toNat := by
  have hu := update_spec s elapsed hp hfd
  by_cases hpos : 0 ≤ s.accumulator + min s.maxAccumulated elapsed
  · have haccF := hu.2.2.2.2.2.2.1 hpos
    have heq := hu.2.2.2.1
    have hmin : min s.maxAccumulated elapsed ≤ s.maxAccumulated := min_le_left _ _
    have hb2 : (((update s elapsed).2).length : ℚ) * s.fixedDt
        < s.fixedDt + s.maxAccumulated := by
      rw [heq] at haccF
      linarith
    have hlt : ((((update s elapsed).2).length : ℚ) - 1)
        < s.maxAccumulated / s.fixedDt := by
      rw [lt_div_iff₀ hfd]
      nlinarith [hb2]
    have hceil : ((((update s elapsed).2).length : ℤ) - 1)
        < ⌈s.maxAccumulated / s.fixedDt⌉ := by
      rw [Int.lt_ceil]
      push_cast
      linarith [hlt]
    omega
  · have hlt2 : s.accumulator + min s.maxAccumulated elapsed < s.fixedDt :=
      lt_of_lt_of_le (lt_of_not_le hpos) hfd.le
    have hspin := spinAux_of_lt s.fixedDt (s.accumulator + min s.maxAccumulated elapsed)
      ((⌊(s.accumulator + min s.maxAccumulated elapsed) / s.fixedDt⌋).toNat) hlt2
    have hzero : (update s elapsed).2 = [] := by
      simp [update, hp, hspin]
    rw [hzero]
    simp

/-- C4 witness for the amended bound: the counterexample scenario obeys
the `ceil` bound (`2 ≤ 2`). -/
theorem scheduler_spike_clamp_witness :
    ((update ((update (startFixedStep 1 (3/2)) (9/10)).1) 10).2).length ≤
      (⌈((update (startFixedStep 1 (3/2)) (9/10)).1).maxAccumulated /
         ((update (startFixedStep 1 (3/2)) (9/10)).1).fixedDt⌉).toNat :=
  scheduler_spike_clamp ((update (startFixedStep 1 (3/2)) (9/10)).1) 10
    (by norm_num [update, spinAux, startFixedStep, min_def, max_def])
    (by norm_num [update, spinAux, startFixedStep, min_def, max_def])
    (by norm_num [update, spinAux, startFixedStep, min_def, max_def])
    (by norm_num [update, spinAux, startFixedStep, min_def, max_def])

/-- C5 counterexample: a controller constructed with a negative
`maxAccumulatedTime` (`-1`).  The very first invocation, with elapsed
time `0` (monotone clock), clamps the frame time to `min (-1) 0 = -1`,
driving the accumulator to `-1`, outside `[0, fixedDelta)`. -/
theorem scheduler_accumulator_invariant_cex :
    ¬ (0 ≤ ((update (startFixedStep 1 (-1)) 0).1).accumulator ∧
       ((update (startFixedStep 1 (-1)) 0).1).accumulator
         < ((update (startFixedStep 1 (-1)) 0).1).fixedDt) := by
  norm_num [update, spinAux, startFixedStep, min_def, max_def]

theorem schedOp_inv (s : FixedStepState) (op : SchedOp)
    (hfd : 0 < s.fixedDt) (hm : 0 ≤ s.maxAccumulated)
    (h0 : 0 ≤ s.accumulator) (h1 : s.accumulator < s.fixedDt)
    (hop : ∀ e, op = SchedOp.tick e → 0 ≤ e) :
    (applySchedOp s op).fixedDt = s.fixedDt ∧
    (applySchedOp s op).maxAccumulated = s.maxAccumulated ∧
    0 ≤ (applySchedOp s op).accumulator ∧
    (applySchedOp s op).accumulator < s.fixedDt := by
  cases op with
  | pauseOp => exact ⟨rfl, rfl, h0, h1⟩
  | resumeOp => exact ⟨rfl, rfl, h0, h1⟩
  | tick e =>
      by_cases hp : s.paused
      · have hupd : applySchedOp s (SchedOp.tick e) = { s with stepsLastFrame := 0 } := by
          simp [applySchedOp, update, hp]
        rw [hupd]
        exact ⟨rfl, rfl, h0, h1⟩
      · have hp' : s.paused = false := by simpa using hp
        have hu := update_spec s e hp' hfd
        have he : 0 ≤ e := hop e rfl
        have hmin : 0 ≤ min s.maxAccumulated e := le_min hm he
        exact ⟨hu.1, hu.2.1, hu.2.2.2.2.2.2.1 (by linarith), hu.2.2.2.2.1⟩

/-- C5 amended: for every controller whose configured
`maxAccumulatedTime` is non-negative, under a monotone wall clock (every
invocation's elapsed time is non-negative), the accumulator lies in
`[0, fixedDelta)` after every scheduler invocation — and indeed after any
interleaving of invocations, pauses and resumes.  For a controller with a
negative `maxAccumulatedTime` the invariant fails (see the
counterexample). -/
theorem scheduler_accumulator_invariant (hz mAcc : ℚ) (hm : 0 ≤ mAcc)
    (ops : List SchedOp) (hops : ∀ e, SchedOp.tick e ∈ ops → 0 ≤ e) :
    0 ≤ (runSchedOps (startFixedStep hz mAcc) ops).accumulator ∧
    (runSchedOps (startFixedStep hz mAcc) ops).accumulator
      < (runSchedOps (startFixedStep hz mAcc) ops).fixedDt := by
  suffices h : ∀ (l : List SchedOp) (s : FixedStepState),
      0 < s.fixedDt → 0 ≤ s.maxAccumulated →
      0 ≤ s.accumulator → s.accumulator < s.fixedDt →
      (∀ e, SchedOp.tick e ∈ l → 0 ≤ e) →
      (runSchedOps s l).fixedDt = s.fixedDt ∧
      0 ≤ (runSchedOps s l).accumulator ∧
      (runSchedOps s l).accumulator < s.fixedDt by
    have hfd := fixedDt_pos hz mAcc
    have hres := h ops (startFixedStep hz mAcc) hfd hm le_rfl hfd hops
    exact ⟨hres.2.1, by rw [hres.1]; exact hres.2.2⟩
  intro l
  induction l with
  | nil => intro s _ _ h0 h1 _; exact ⟨rfl, h0, h1⟩
  | cons op rest ih =>
      intro s hfd hm' h0 h1 hl
      have hstep := schedOp_inv s op hfd hm' h0 h1
        (fun e he => hl e (by rw [he]; exact List.mem_cons_self _ _))
      have hrun : runSchedOps s (op :: rest) = runSchedOps (applySchedOp s op) rest := rfl
      rw [hrun]
      have hrest : ∀ e, SchedOp.tick e ∈ rest → 0 ≤ e :=
        fun e he => hl e (List.mem_cons_of_mem _ he)
      have := ih (applySchedOp s op) (by rw [hstep.1]; exact hfd)
        (by rw [hstep.2.1]; exact hm') hstep.2.2.1
        (by rw [hstep.1]; exact hstep.2.2.2) hrest
      exact ⟨by rw [this.1, hstep.1], this.2.1, by rw [← hstep.1]; exact this.2.2⟩

/-- C5 witness for the amended invariant: a tick, a pause, a paused tick
and a resume on a default-configured controller. -/
theorem scheduler_accumulator_invariant_witness :
    0 ≤ (runSchedOps (startFixedStep 60 (1/4))
          [SchedOp.tick (1/10), SchedOp.pauseOp, SchedOp.tick 5,
           SchedOp.resumeOp]).accumulator ∧
    (runSchedOps (startFixedStep 60 (1/4))
        [SchedOp.tick (1/10), SchedOp.pauseOp, SchedOp.tick 5,
         SchedOp.resumeOp]).accumulator
      < (runSchedOps (startFixedStep 60 (1/4))
          [SchedOp.tick (1/10), SchedOp.pauseOp, SchedOp.tick 5,
           SchedOp.resumeOp]).fixedDt :=
  scheduler_accumulator_invariant 60 (1/4) (by norm_num)
    [SchedOp.tick (1/10), SchedOp.pauseOp, SchedOp.tick 5, SchedOp.resumeOp]
    (by
      intro e he
      simp only [List.mem_cons, List.mem_singleton, List.not_mem_nil, or_false] at he
      rcases he with h | h | h | h <;> first
        | (cases h; norm_num)
        | exact absurd h (by simp))

/-- C9: polling twice with no intervening raw key events yields a second
snapshot with empty `pressed` and `released` sets and the same `held` set
as the first snapshot, and polling never changes the internal `held`
state. -/
theorem poll_twice_consume_once {α : Type} (m : InputMapperState α) :
    ((poll (poll m).2).1).pressed = [] ∧
    ((poll (poll m).2).1).released = [] ∧
    ((poll (poll m).2).1).held = ((poll m).1).held ∧
    ((poll m).2).held = m.held ∧
    ((poll (poll m).2).2).held = m.held := by
  exact ⟨rfl, rfl, rfl, rfl, rfl⟩

/-- Deleting a key that is not bound leaves the association list
unchanged. -/
theorem eraseEntry_of_not_mem {K V : Type} [DecidableEq K]
    (l : List (K × V)) (k : K) (h : ∀ e ∈ l, e.1 ≠ k) : eraseEntry l k = l := by
  induction l with
  | nil => rfl
  | cons e rest ih =>
      have hek : e.1 ≠ k := h e (List.mem_cons_self _ _)
      simp only [eraseEntry, if_neg hek]
      rw [ih (fun x hx => h x (List.mem_cons_of_mem _ hx))]

/-- C6 counterexample: removing a never-allocated body id from a physics
world holding one dynamic body, and destroying an unknown entity in an
ECS world holding one entity, both return the state unchanged: a silent
no-op, with no "not found" signal of any kind (neither function can
throw). -/
theorem not_found_signal_cex :
    removeDynamicBody
        ((addDynamicBody (createPhysicsWorld {})
          { x := 0, y := 0, width := 1, height := 1 }).2) 7
      = (addDynamicBody (createPhysicsWorld {})
          { x := 0, y := 0, width := 1, height := 1 }).2 ∧
    destroyEntity ((createEntity (emptyEcsWorld ℕ)).2) 7
      = (createEntity (emptyEcsWorld ℕ)).2 := by
  constructor
  · simp [removeDynamicBody, addDynamicBody, createPhysicsWorld, eraseEntry, setEntry]
  · simp [destroyEntity, createEntity, emptyEcsWorld]

/-- C6 amended: `removeDynamicBody` on an id not bound to a live dynamic
body, and `destroyEntity` on an entity that is not alive, are silent
no-ops — the state is returned unchanged and nothing is signalled (only
`World.addComponent` raises a not-alive error in the source). -/
theorem not_found_silent_noop {δ : Type} (w : PhysicsWorld) (idq : ℕ)
    (ew : EcsWorld δ) (entity : ℕ)
    (hw : ∀ e ∈ w.dynamicBodies, e.1 ≠ idq) (he : entity ∉ ew.alive) :
    removeDynamicBody w idq = w ∧ destroyEntity ew entity = ew := by
  constructor
  · show ({ w with dynamicBodies := eraseEntry w.dynamicBodies idq } : PhysicsWorld) = w
    rw [eraseEntry_of_not_mem w.dynamicBodies idq hw]
  · simp [destroyEntity, he]

/-- C6 amended witness. -/
theorem not_found_silent_noop_witness :
    removeDynamicBody
        ((addDynamicBody (createPhysicsWorld {})
          { x := 0, y := 0, width := 1, height := 1 }).2) 9
      = (addDynamicBody (createPhysicsWorld {})
          { x := 0, y := 0, width := 1, height := 1 }).2 ∧
    destroyEntity ((createEntity (emptyEcsWorld ℕ)).2) 9
      = (createEntity (emptyEcsWorld ℕ)).2 :=
  not_found_silent_noop _ 9 _ 9
    (by simp [addDynamicBody, createPhysicsWorld, setEntry])
    (by simp [createEntity, emptyEcsWorld])

/-- C2 counterexample: in the spec's example scenario, `step(1)` moves
the body by `dx = vx * dt = 100`, far past the static body, and the
post-move overlap test finds nothing — the body tunnels and ends at
`x = 100` with `vx = 100`, not flush at `x = 5` with `vx = 0` (consistent
with the spec's own documented tunneling limitation for displacements
exceeding the body size). -/
theorem step_flush_example_cex :
    (getDynamicBodies (step exampleWorldFast 1)).map DynamicBody.x = [100] ∧
    (getDynamicBodies (step exampleWorldFast 1)).map DynamicBody.vx = [100] ∧
    ¬ ((getDynamicBodies (step exampleWorldFast 1)).map DynamicBody.x = [5] ∧
       (getDynamicBodies (step exampleWorldFast 1)).map DynamicBody.vx = [0]) := by
  norm_num [exampleWorldFast, createPhysicsWorld, addStaticBody, addDynamicBody, step,
    stepBody, resolveAxis, resolveLoop, resolvePass, scanStep, pushBody, moveBody,
    getDynamicBodies, setEntry, lookupEntry, eraseEntry, setAdd, keysFor, rangeInts,
    rangeIntsAux, SpatialHash.add, SpatialHash.query, addCellStep, queryCellStep, SpatialHash.allItems,
    SpatialHash.bucketOf, StaticBody.aabb, DynamicBody.aabb, aabbOverlap, queryStatics]

/-- C2 amended: the example resolves flush only when the one-step
displacement actually lands the body overlapping the static.  With
`vx = 10` (displacement equal to the body size), `step(1)` leaves the
body at `x = 5`, flush against the static's left edge at `x = 15`, with
`vx = 0`; with `vx = 100` the body tunnels to `x = 100` with `vx = 100`
as shown in the counterexample. -/
theorem step_flush_example_amended :
    (getDynamicBodies (step exampleWorldSlow 1)).map DynamicBody.x = [5] ∧
    (getDynamicBodies (step exampleWorldSlow 1)).map DynamicBody.vx = [0] := by
  norm_num [exampleWorldSlow, createPhysicsWorld, addStaticBody, addDynamicBody, step,
    stepBody, resolveAxis, resolveLoop, resolvePass, scanStep, pushBody, moveBody,
    getDynamicBodies, setEntry, lookupEntry, eraseEntry, setAdd, keysFor, rangeInts,
    rangeIntsAux, SpatialHash.add, SpatialHash.query, addCellStep, queryCellStep, SpatialHash.allItems,
    SpatialHash.bucketOf, StaticBody.aabb, DynamicBody.aabb, aabbOverlap, queryStatics]

/-- C7 counterexample: a dynamic body added to a fresh world receives id
`1`; after `clear()` resets the counter, the next body added also
receives id `1`, although it is a different body — so over the world's
lifetime the same id is assigned to two different bodies once `clear()`
intervenes. -/
theorem id_reuse_after_clear_cex :
    ((addDynamicBody (createPhysicsWorld {})
        { x := 0, y := 0, width := 1, height := 1 }).1).id
      = ((addDynamicBody
            (PhysicsWorld.clear
              ((addDynamicBody (createPhysicsWorld {})
                { x := 0, y := 0, width := 1, height := 1 }).2))
            { x := 5, y := 5, width := 1, height := 1 }).1).id ∧
    (addDynamicBody (createPhysicsWorld {})
        { x := 0, y := 0, width := 1, height := 1 }).1
      ≠ (addDynamicBody
            (PhysicsWorld.clear
              ((addDynamicBody (createPhysicsWorld {})
                { x := 0, y := 0, width := 1, height := 1 }).2))
            { x := 5, y := 5, width := 1, height := 1 }).1 := by
  norm_num [addDynamicBody, createPhysicsWorld, PhysicsWorld.clear, setEntry]

theorem runPhysOps_ids (ops : List PhysOp) :
    ∀ w : PhysicsWorld,
      (∀ i ∈ (runPhysOps w ops).2, w.nextId ≤ i) ∧
      ((runPhysOps w ops).2).Pairwise (· < ·) := by
  induction ops with
  | nil => intro w; simp [runPhysOps]
  | cons op rest ih =>
      intro w
      cases op with
      | addDyn init =>
          have hrun : runPhysOps w (PhysOp.addDyn init :: rest)
              = ((runPhysOps (addDynamicBody w init).2 rest).1,
                 w.nextId :: (runPhysOps (addDynamicBody w init).2 rest).2) := by
            simp [runPhysOps, applyPhysOp, addDynamicBody]
          have hnext : ((addDynamicBody w init).2).nextId = w.nextId + 1 := rfl
          have hr := ih (addDynamicBody w init).2
          rw [hnext] at hr
          rw [hrun]
          constructor
          · intro i hi
            rcases List.mem_cons.1 hi with h | h
            · rw [h]
            · exact le_trans (Nat.le_succ _) (hr.1 i h)
          · exact List.pairwise_cons.2
              ⟨fun i hi => lt_of_lt_of_le (Nat.lt_succ_self _) (hr.1 i hi), hr.2⟩
      | addStat init =>
          have hrun : runPhysOps w (PhysOp.addStat init :: rest)
              = ((runPhysOps (addStaticBody w init).2 rest).1,
                 w.nextId :: (runPhysOps (addStaticBody w init).2 rest).2) := by
            simp [runPhysOps, applyPhysOp, addStaticBody]
          have hnext : ((addStaticBody w init).2).nextId = w.nextId + 1 := rfl
          have hr := ih (addStaticBody w init).2
          rw [hnext] at hr
          rw [hrun]
          constructor
          · intro i hi
            rcases List.mem_cons.1 hi with h | h
            · rw [h]
            · exact le_trans (Nat.le_succ _) (hr.1 i h)
          · exact List.pairwise_cons.2
              ⟨fun i hi => lt_of_lt_of_le (Nat.lt_succ_self _) (hr.1 i hi), hr.2⟩
      | removeDyn idr =>
          have hrun : runPhysOps w (PhysOp.removeDyn idr :: rest)
              = ((runPhysOps (removeDynamicBody w idr) rest).1,
                 (runPhysOps (removeDynamicBody w idr) rest).2) := by
            simp [runPhysOps, applyPhysOp]
          have hnext : (removeDynamicBody w idr).nextId = w.nextId := rfl
          have hr := ih (removeDynamicBody w idr)
          rw [hnext] at hr
          rw [hrun]
          exact hr

/-- C7 amended: in any sequence of `addDynamicBody`, `addStaticBody` and
`removeDynamicBody` operations on a fresh world — i.e. as long as
`clear()` is not called — the ids handed out are strictly increasing, so
no id is ever assigned to two different bodies, even after removals.
`clear()`, however, resets the id counter to `1`, after which ids are
reused (see the counterexample). -/
theorem physics_ids_amended (options : PhysicsWorldOptions) (ops : List PhysOp) :
    ((runPhysOps (createPhysicsWorld options) ops).2).Pairwise (· < ·) ∧
    ∀ w : PhysicsWorld, (PhysicsWorld.clear w).nextId = 1 :=
  ⟨(runPhysOps_ids ops (createPhysicsWorld options)).2, fun _ => rfl⟩

/-- C10: `clear()` empties both body maps and resets the id counter but
leaves the spatial hash untouched.  Concretely: after adding a static
body and clearing, `getStaticBodies()` yields nothing, yet the broadphase
still returns the old static for a query overlapping it, and a `step()`
on a dynamic body added after the clear still collides with that ghost
geometry (the body is pushed flush to `x = 5` with `vx = 0`). -/
theorem clear_leaves_spatial_hash :
    (∀ w : PhysicsWorld,
      (PhysicsWorld.clear w).staticBodies = [] ∧
      (PhysicsWorld.clear w).dynamicBodies = [] ∧
      (PhysicsWorld.clear w).nextId = 1 ∧
      (PhysicsWorld.clear w).spatialHash = w.spatialHash) ∧
    getStaticBodies clearedWorld = [] ∧
    queryStatics clearedWorld ⟨0, 0, 40, 20⟩
      = [{ id := 1, x := 15, y := 0, width := 10, height := 10 }] ∧
    (getDynamicBodies (step clearedWorldWithBody 1)).map DynamicBody.x = [5] ∧
    (getDynamicBodies (step clearedWorldWithBody 1)).map DynamicBody.vx = [0] := by
  refine ⟨fun w => ⟨rfl, rfl, rfl, rfl⟩, by norm_num [clearedWorld, getStaticBodies,
    createPhysicsWorld, addStaticBody, PhysicsWorld.clear], ?_, ?_⟩
  · norm_num [clearedWorld, createPhysicsWorld, addStaticBody, PhysicsWorld.clear,
      queryStatics, SpatialHash.add, SpatialHash.query, addCellStep, queryCellStep, keysFor, rangeInts, rangeIntsAux,
      setEntry, lookupEntry, setAdd, StaticBody.aabb]
  · constructor <;>
    norm_num [clearedWorld, clearedWorldWithBody, createPhysicsWorld, addStaticBody,
      addDynamicBody, PhysicsWorld.clear, step, stepBody, resolveAxis, resolveLoop,
      resolvePass, scanStep, pushBody, moveBody, getDynamicBodies, setEntry, lookupEntry,
      eraseEntry, setAdd, keysFor, rangeInts, rangeIntsAux, SpatialHash.add,
      SpatialHash.query, addCellStep, queryCellStep, SpatialHash.allItems,
      SpatialHash.bucketOf, StaticBody.aabb,
      DynamicBody.aabb, aabbOverlap, queryStatics]

/-! ### Spatial-hash key geometry -/

theorem mem_rangeIntsAux : ∀ (n : ℕ) (lo k : ℤ),
    k ∈ rangeIntsAux lo n ↔ lo ≤ k ∧ k < lo + n := by
  intro n
  induction n with
  | zero => intro lo k; simp [rangeIntsAux]
  | succ m ih =>
      intro lo k
      simp only [rangeIntsAux, List.mem_cons, ih (lo + 1) k]
      omega

theorem mem_rangeInts (lo hi k : ℤ) :
    k ∈ rangeInts lo hi ↔ lo ≤ k ∧ k ≤ hi := by
  rw [rangeInts, mem_rangeIntsAux]
  omega

theorem nodup_rangeIntsAux : ∀ (n : ℕ) (lo : ℤ), (rangeIntsAux lo n).Nodup := by
  intro n
  induction n with
  | zero => intro lo; simp [rangeIntsAux]
  | succ m ih =>
      intro lo
      refine List.nodup_cons.2 ⟨?_, ih (lo + 1)⟩
      rw [mem_rangeIntsAux]
      omega

theorem nodup_pair_grid (xs ys : List ℤ) (hxs : xs.Nodup) (hys : ys.Nodup) :
    (xs.flatMap (fun cx => ys.map (fun cy => (cx, cy)))).Nodup := by
  induction xs with
  | nil => simp
  | cons x rest ih =>
      have hx : x ∉ rest := (List.nodup_cons.1 hxs).1
      have hrest := ih (List.nodup_cons.1 hxs).2
      simp only [List.flatMap_cons]
      refine List.Nodup.append ?_ hrest ?_
      · exact hys.map (fun a b hab => (Prod.mk.inj hab).2)
      · intro p hp hp'
        rcases List.mem_map.1 hp with ⟨cy, _, rfl⟩
        rcases List.mem_flatMap.1 hp' with ⟨cx, hcx, hcy⟩
        rcases List.mem_map.1 hcy with ⟨cy', _, heq⟩
        have : cx = x := (Prod.mk.inj heq).1
        exact hx (this ▸ hcx)

theorem mem_keysFor (cellSize : ℚ) (b : AABB) (k : ℤ × ℤ) :
    k ∈ keysFor cellSize b ↔
      ⌊b.x / cellSize⌋ ≤ k.1 ∧ k.1 ≤ ⌊(b.x + b.width) / cellSize⌋ ∧
      ⌊b.y / cellSize⌋ ≤ k.2 ∧ k.2 ≤ ⌊(b.y + b.height) / cellSize⌋ := by
  simp only [keysFor, List.mem_flatMap, List.mem_map, mem_rangeInts]
  constructor
  · rintro ⟨cx, hcx, cy, hcy, rfl⟩
    exact ⟨hcx.1, hcx.2, hcy.1, hcy.2⟩
  · rintro ⟨h1, h2, h3, h4⟩
    exact ⟨k.1, ⟨h1, h2⟩, k.2, ⟨h3, h4⟩, rfl⟩

theorem nodup_keysFor (cellSize : ℚ) (b : AABB) : (keysFor cellSize b).Nodup := by
  have h1 := nodup_rangeIntsAux (⌊(b.x + b.width) / cellSize⌋ + 1 - ⌊b.x / cellSize⌋).toNat
    ⌊b.x / cellSize⌋
  have h2 := nodup_rangeIntsAux (⌊(b.y + b.height) / cellSize⌋ + 1 - ⌊b.y / cellSize⌋).toNat
    ⌊b.y / cellSize⌋
  exact nodup_pair_grid _ _ h1 h2

theorem floor_range_iff (cs xq w : ℚ) (hcs : 0 < cs) (hw : 0 ≤ w) (m : ℤ) :
    (⌊xq / cs⌋ ≤ m ∧ m ≤ ⌊(xq + w) / cs⌋) ↔
      ∃ p : ℚ, xq ≤ p ∧ p ≤ xq + w ∧ ⌊p / cs⌋ = m := by
  constructor
  · rintro ⟨h1, h2⟩
    by_cases hc : (m : ℚ) * cs ≤ xq
    · refine ⟨xq, le_rfl, by linarith, ?_⟩
      have hm : (m : ℚ) ≤ xq / cs := (le_div_iff₀ hcs).2 hc
      have : m ≤ ⌊xq / cs⌋ := Int.le_floor.2 hm
      omega
    · refine ⟨(m : ℚ) * cs, le_of_not_le hc, ?_, ?_⟩
      · have hm0 : (m : ℚ) ≤ (⌊(xq + w) / cs⌋ : ℚ) := by exact_mod_cast h2
        have hm : (m : ℚ) ≤ (xq + w) / cs := le_trans hm0 (Int.floor_le _)
        exact (le_div_iff₀ hcs).1 hm
      · rw [mul_div_cancel_right₀ _ (ne_of_gt hcs)]
        exact Int.floor_intCast m
  · rintro ⟨p, h1, h2, rfl⟩
    constructor
    · exact Int.floor_le_floor (by gcongr)
    · exact Int.floor_le_floor (by gcongr)

theorem mem_keysFor_iff_cellOverlap (cellSize : ℚ) (b : AABB) (k : ℤ × ℤ)
    (hcs : 0 < cellSize) (hw : 0 ≤ b.width) (hh : 0 ≤ b.height) :
    k ∈ keysFor cellSize b ↔ cellOverlap cellSize b k := by
  rw [mem_keysFor, cellOverlap]
  rw [show (⌊b.x / cellSize⌋ ≤ k.1 ∧ k.1 ≤ ⌊(b.x + b.width) / cellSize⌋ ∧
      ⌊b.y / cellSize⌋ ≤ k.2 ∧ k.2 ≤ ⌊(b.y + b.height) / cellSize⌋) ↔
      ((⌊b.x / cellSize⌋ ≤ k.1 ∧ k.1 ≤ ⌊(b.x + b.width) / cellSize⌋) ∧
       (⌊b.y / cellSize⌋ ≤ k.2 ∧ k.2 ≤ ⌊(b.y + b.height) / cellSize⌋)) from by tauto]
  rw [floor_range_iff cellSize b.x b.width hcs hw k.1,
      floor_range_iff cellSize b.y b.height hcs hh k.2]
  constructor
  · rintro ⟨⟨p, hp1, hp2, hp3⟩, ⟨q, hq1, hq2, hq3⟩⟩
    exact ⟨p, q, hp1, hp2, hq1, hq2, hp3, hq3⟩
  · rintro ⟨p, q, hp1, hp2, hq1, hq2, hp3, hq3⟩
    exact ⟨⟨p, hp1, hp2, hp3⟩, ⟨q, hq1, hq2, hq3⟩⟩

/-! ### Association-list (JavaScript `Map`) lemmas -/

theorem lookup_setEntry_self {K V : Type} [DecidableEq K] :
    ∀ (l : List (K × V)) (k : K) (v : V),
      lookupEntry (setEntry l k v) k = some v := by
  intro l
  induction l with
  | nil => intro k v; simp [setEntry, lookupEntry]
  | cons e rest ih =>
      intro k v
      by_cases hek : e.1 = k
      · simp [setEntry, lookupEntry, hek]
      · simp only [setEntry, if_neg hek, lookupEntry, hek, if_false]
        exact ih k v

theorem lookup_setEntry_ne {K V : Type} [DecidableEq K] :
    ∀ (l : List (K × V)) (k k' : K) (v : V), k' ≠ k →
      lookupEntry (setEntry l k v) k' = lookupEntry l k' := by
  intro l
  induction l with
  | nil => intro k k' v h; simp [setEntry, lookupEntry, Ne.symm h]
  | cons e rest ih =>
      intro k k' v h
      by_cases hek : e.1 = k
      · simp only [setEntry, if_pos hek, lookupEntry, Ne.symm h, if_false, hek]
      · simp only [setEntry, if_neg hek, lookupEntry]
        by_cases hek' : e.1 = k'
        · simp [hek']
        · simp only [hek', if_false]
          exact ih k k' v h

theorem lookup_eraseEntry_ne {K V : Type} [DecidableEq K] :
    ∀ (l : List (K × V)) (k k' : K), k' ≠ k →
      lookupEntry (eraseEntry l k) k' = lookupEntry l k' := by
  intro l
  induction l with
  | nil => intro k k' h; simp [eraseEntry]
  | cons e rest ih =>
      intro k k' h
      by_cases hek : e.1 = k
      · simp only [eraseEntry, if_pos hek, lookupEntry]
        have : e.1 ≠ k' := by rw [hek]; exact Ne.symm h
        simp only [this, if_false]
      · simp only [eraseEntry, if_neg hek, lookupEntry]
        by_cases hek' : e.1 = k'
        · simp [hek']
        · simp only [hek', if_false]
          exact ih k k' h

theorem lookup_none_of_not_mem_keys {K V : Type} [DecidableEq K] :
    ∀ (l : List (K × V)) (k : K), k ∉ l.map Prod.fst → lookupEntry l k = none := by
  intro l
  induction l with
  | nil => intro k _; rfl
  | cons e rest ih =>
      intro k hk
      simp only [List.map_cons, List.mem_cons] at hk
      push_neg at hk
      simp only [lookupEntry, Ne.symm hk.1, if_false]
      exact ih k hk.2

theorem lookup_eraseEntry_self {K V : Type} [DecidableEq K] :
    ∀ (l : List (K × V)) (k : K), (l.map Prod.fst).Nodup →
      lookupEntry (eraseEntry l k) k = none := by
  intro l
  induction l with
  | nil => intro k _; rfl
  | cons e rest ih =>
      intro k hnd
      rw [List.map_cons, List.nodup_cons] at hnd
      by_cases hek : e.1 = k
      · simp only [eraseEntry, if_pos hek]
        apply lookup_none_of_not_mem_keys
        rw [← hek]
        exact hnd.1
      · simp only [eraseEntry, if_neg hek, lookupEntry, hek, if_false]
        exact ih k hnd.2

theorem mem_keys_setEntry {K V : Type} [DecidableEq K] :
    ∀ (l : List (K × V)) (k k' : K) (v : V),
      k' ∈ (setEntry l k v).map Prod.fst ↔ k' ∈ l.map Prod.fst ∨ k' = k := by
  intro l
  induction l with
  | nil => intro k k' v; simp [setEntry]
  | cons e rest ih =>
      intro k k' v
      by_cases hek : e.1 = k
      · rw [setEntry, if_pos hek]
        simp only [List.map_cons, List.mem_cons, hek]
        tauto
      · rw [setEntry, if_neg hek]
        simp only [List.map_cons, List.mem_cons, ih k k' v]
        tauto

theorem nodup_keys_setEntry {K V : Type} [DecidableEq K] :
    ∀ (l : List (K × V)) (k : K) (v : V), (l.map Prod.fst).Nodup →
      ((setEntry l k v).map Prod.fst).Nodup := by
  intro l
  induction l with
  | nil => intro k v _; simp [setEntry]
  | cons e rest ih =>
      intro k v hnd
      rw [List.map_cons, List.nodup_cons] at hnd
      by_cases hek : e.1 = k
      · rw [setEntry, if_pos hek, List.map_cons, List.nodup_cons]
        exact ⟨hek ▸ hnd.1, hnd.2⟩
      · rw [setEntry, if_neg hek, List.map_cons, List.nodup_cons]
        refine ⟨?_, ih k v hnd.2⟩
        rw [mem_keys_setEntry]
        push_neg
        exact ⟨hnd.1, hek⟩

theorem eraseEntry_subset {K V : Type} [DecidableEq K] :
    ∀ (l : List (K × V)) (k : K), eraseEntry l k ⊆ l := by
  intro l
  induction l with
  | nil => intro k a ha; simp [eraseEntry] at ha
  | cons e rest ih =>
      intro k a ha
      by_cases hek : e.1 = k
      · rw [eraseEntry, if_pos hek] at ha
        exact List.mem_cons_of_mem _ ha
      · rw [eraseEntry, if_neg hek, List.mem_cons] at ha
        rcases ha with h | h
        · exact h ▸ List.mem_cons_self _ _
        · exact List.mem_cons_of_mem _ (ih k h)

theorem nodup_keys_eraseEntry {K V : Type} [DecidableEq K] :
    ∀ (l : List (K × V)) (k : K), (l.map Prod.fst).Nodup →
      ((eraseEntry l k).map Prod.fst).Nodup := by
  intro l
  induction l with
  | nil => intro k _; simp [eraseEntry]
  | cons e rest ih =>
      intro k hnd
      rw [List.map_cons, List.nodup_cons] at hnd
      by_cases hek : e.1 = k
      · rw [eraseEntry, if_pos hek]
        exact hnd.2
      · rw [eraseEntry, if_neg hek, List.map_cons, List.nodup_cons]
        refine ⟨?_, ih k hnd.2⟩
        intro hmem
        rcases List.mem_map.1 hmem with ⟨p, hp, hpe⟩
        exact hnd.1 (hpe ▸ List.mem_map_of_mem Prod.fst (eraseEntry_subset rest k hp))

theorem lookupEntry_mem {K V : Type} [DecidableEq K] :
    ∀ (l : List (K × V)) (k : K) (v : V),
      lookupEntry l k = some v → (k, v) ∈ l := by
  intro l
  induction l with
  | nil => intro k v h; simp [lookupEntry] at h
  | cons e rest ih =>
      intro k v h
      by_cases hek : e.1 = k
      · rw [lookupEntry, if_pos hek] at h
        cases h
        rw [← hek]
        exact List.mem_cons_self _ _
      · rw [lookupEntry, if_neg hek] at h
        exact List.mem_cons_of_mem _ (ih k v h)

theorem mem_setAdd {α : Type} [DecidableEq α] (l : List α) (a x : α) :
    x ∈ setAdd l a ↔ x ∈ l ∨ x = a := by
  by_cases h : a ∈ l
  · rw [setAdd, if_pos h]
    constructor
    · exact Or.inl
    · rintro (hx | rfl)
      · exact hx
      · exact h
  · rw [setAdd, if_neg h]
    simp

theorem lookup_addFold {T : Type} [DecidableEq T] (item : T) :
    ∀ (ks : List (ℤ × ℤ)), ks.Nodup →
      ∀ (cells : List ((ℤ × ℤ) × List T)) (k : ℤ × ℤ),
        lookupEntry (ks.foldl (addCellStep item) cells) k
          = if k ∈ ks then some (setAdd ((lookupEntry cells k).getD []) item)
            else lookupEntry cells k := by
  intro ks
  induction ks with
  | nil => intro _ cells k; simp
  | cons k0 rest ih =>
      intro hnd cells k
      rw [List.nodup_cons] at hnd
      rw [List.foldl_cons, ih hnd.2]
      by_cases hk : k = k0
      · subst hk
        rw [if_neg hnd.1, if_pos (List.mem_cons_self _ _)]
        rw [addCellStep, lookup_setEntry_self]
      · by_cases hkr : k ∈ rest
        · rw [if_pos hkr, if_pos (List.mem_cons_of_mem _ hkr)]
          rw [addCellStep, lookup_setEntry_ne _ _ _ _ hk]
        · rw [if_neg hkr, if_neg (by simp [hk, hkr])]
          rw [addCellStep, lookup_setEntry_ne _ _ _ _ hk]

theorem nodup_keys_addFold {T : Type} [DecidableEq T] (item : T) :
    ∀ (ks : List (ℤ × ℤ)) (cells : List ((ℤ × ℤ) × List T)),
      (cells.map Prod.fst).Nodup →
      (((ks.foldl (addCellStep item) cells)).map Prod.fst).Nodup := by
  intro ks
  induction ks with
  | nil => intro cells h; simpa using h
  | cons k0 rest ih =>
      intro cells h
      rw [List.foldl_cons]
      exact ih _ (nodup_keys_setEntry _ _ _ h)

theorem lookup_removeStep_ne {T : Type} [DecidableEq T] (item : T)
    (cells : List ((ℤ × ℤ) × List T)) (k0 k : ℤ × ℤ) (hk : k ≠ k0) :
    lookupEntry (removeCellStep item cells k0) k = lookupEntry cells k := by
  rw [removeCellStep]
  cases hl : lookupEntry cells k0 with
  | none => rfl
  | some bucket =>
      by_cases he : (bucket.erase item).isEmpty
      · simp only [he, if_true]
        exact lookup_eraseEntry_ne _ _ _ hk
      · simp only [he, if_false]
        exact lookup_setEntry_ne _ _ _ _ hk

theorem nodup_keys_removeStep {T : Type} [DecidableEq T] (item : T)
    (cells : List ((ℤ × ℤ) × List T)) (k0 : ℤ × ℤ)
    (h : (cells.map Prod.fst).Nodup) :
    ((removeCellStep item cells k0).map Prod.fst).Nodup := by
  rw [removeCellStep]
  cases hl : lookupEntry cells k0 with
  | none => exact h
  | some bucket =>
      by_cases he : (bucket.erase item).isEmpty
      · simp only [he, if_true]
        exact nodup_keys_eraseEntry _ _ h
      · simp only [he, if_false]
        exact nodup_keys_setEntry _ _ _ h

theorem lookup_removeFold {T : Type} [DecidableEq T] (item : T) :
    ∀ (ks : List (ℤ × ℤ)), ks.Nodup →
      ∀ (cells : List ((ℤ × ℤ) × List T)) (k : ℤ × ℤ),
        (cells.map Prod.fst).Nodup →
        lookupEntry (ks.foldl (removeCellStep item) cells) k
          = if k ∈ ks then
              (lookupEntry cells k).bind (fun bucket =>
                if (bucket.erase item).isEmpty then none
                else some (bucket.erase item))
            else lookupEntry cells k := by
  intro ks
  induction ks with
  | nil => intro _ cells k _; simp
  | cons k0 rest ih =>
      intro hnd cells k hkeys
      rw [List.nodup_cons] at hnd
      rw [List.foldl_cons, ih hnd.2 _ _ (nodup_keys_removeStep item cells k0 hkeys)]
      by_cases hk : k = k0
      · subst hk
        rw [if_neg hnd.1, if_pos (List.mem_cons_self _ _)]
        rw [removeCellStep]
        cases hl : lookupEntry cells k with
        | none => simp [hl]
        | some bucket =>
            by_cases he : (bucket.erase item).isEmpty
            · simp only [he, if_true, Option.some_bind]
              exact lookup_eraseEntry_self _ _ hkeys
            · simp only [he, if_false, Option.some_bind]
              exact lookup_setEntry_self _ _ _
      · rw [lookup_removeStep_ne item cells k0 k hk]
        by_cases hkr : k ∈ rest
        · rw [if_pos hkr, if_pos (List.mem_cons_of_mem _ hkr)]
        · rw [if_neg hkr, if_neg (by simp [hk, hkr])]

theorem setAdd_erase {α : Type} [DecidableEq α] (l : List α) (a : α) (h : a ∉ l) :
    (setAdd l a).erase a = l := by
  rw [setAdd, if_neg h, List.erase_append_right _ h, List.erase_cons_head,
    List.append_nil]

/-- C8: adding a fresh item to a spatial hash makes it reachable from
exactly the cell keys whose cell region shares a point with the item's
AABB (`cellOverlap`), and from no other key; and `remove` after `add`
restores the previous cell-membership relation exactly, for every key and
every item. -/
theorem spatialHash_exact_membership {T : Type} [DecidableEq T] (bounds : T → AABB)
    (h : SpatialHash T) (item : T)
    (hcs : 0 < h.cellSize)
    (hw : 0 ≤ (bounds item).width) (hh : 0 ≤ (bounds item).height)
    (hfresh : ∀ e ∈ h.cells, item ∉ e.2)
    (hkeys : (h.cells.map Prod.fst).Nodup) :
    (∀ k, item ∈ (h.add bounds item).bucketOf k ↔
      cellOverlap h.cellSize (bounds item) k) ∧
    (∀ k x, x ∈ ((h.add bounds item).remove bounds item).bucketOf k ↔
      x ∈ h.bucketOf k) := by
  have hndk := nodup_keysFor h.cellSize (bounds item)
  have hfresh' : ∀ k, item ∉ (lookupEntry h.cells k).getD [] := by
    intro k
    cases hl : lookupEntry h.cells k with
    | none => simp
    | some bucket =>
        simp only [Option.getD_some]
        exact hfresh (k, bucket) (lookupEntry_mem h.cells k bucket hl)
  constructor
  · intro k
    show item ∈ (lookupEntry ((keysFor h.cellSize (bounds item)).foldl
        (addCellStep item) h.cells) k).getD [] ↔ _
    rw [lookup_addFold item _ hndk h.cells k]
    by_cases hk : k ∈ keysFor h.cellSize (bounds item)
    · rw [if_pos hk, Option.getD_some]
      rw [← mem_keysFor_iff_cellOverlap h.cellSize (bounds item) k hcs hw hh]
      simp [mem_setAdd, hk]
    · rw [if_neg hk]
      rw [← mem_keysFor_iff_cellOverlap h.cellSize (bounds item) k hcs hw hh]
      simp only [hk, iff_false]
      exact hfresh' k
  · intro k x
    have hbase : ((h.add bounds item).remove bounds item).cells
        = (keysFor h.cellSize (bounds item)).foldl (removeCellStep item)
            ((keysFor h.cellSize (bounds item)).foldl (addCellStep item) h.cells) := rfl
    show x ∈ (lookupEntry ((h.add bounds item).remove bounds item).cells k).getD [] ↔ _
    rw [hbase,
      lookup_removeFold item _ hndk _ k (nodup_keys_addFold item _ h.cells hkeys),
      lookup_addFold item _ hndk h.cells k]
    by_cases hk : k ∈ keysFor h.cellSize (bounds item)
    · rw [if_pos hk, if_pos hk]
      have herase : (setAdd ((lookupEntry h.cells k).getD []) item).erase item
          = (lookupEntry h.cells k).getD [] := setAdd_erase _ _ (hfresh' k)
      rw [Option.some_bind, herase]
      by_cases hemp : ((lookupEntry h.cells k).getD []).isEmpty
      · rw [if_pos hemp]
        rw [List.isEmpty_iff] at hemp
        show x ∈ ([] : List T) ↔ _
        rw [SpatialHash.bucketOf, hemp]
      · rw [if_neg hemp]
        rfl
    · rw [if_neg hk, if_neg hk]
      rfl

/-- C8 witness: the spec's broadphase example — cell size `100`, one
static body `{x:0, y:0, width:50, height:50}` added to an empty hash,
checked at cell key `(0, 0)`. -/
theorem spatialHash_exact_membership_witness :
    (StaticBody.mk 1 0 0 50 50) ∈
      (((SpatialHash.mk 100 [] : SpatialHash StaticBody)).add StaticBody.aabb
        (StaticBody.mk 1 0 0 50 50)).bucketOf (0, 0) ↔
    cellOverlap ((SpatialHash.mk 100 [] : SpatialHash StaticBody)).cellSize
      (StaticBody.aabb (StaticBody.mk 1 0 0 50 50)) (0, 0) :=
  (spatialHash_exact_membership StaticBody.aabb
    (SpatialHash.mk 100 []) (StaticBody.mk 1 0 0 50 50)
    (by norm_num) (by norm_num [StaticBody.aabb]) (by norm_num [StaticBody.aabb])
    (by simp) (by simp)).1 (0, 0)

theorem aabbOverlap_iff (a b : AABB) :
    aabbOverlap a b = true ↔
      b.x < a.x + a.width ∧ a.x < b.x + b.width ∧
      b.y < a.y + a.height ∧ a.y < b.y + b.height := by
  simp only [aabbOverlap, Bool.not_eq_true', Bool.or_eq_false_iff,
    decide_eq_false_iff_not, not_le]
  tauto

theorem pushBody_width (delta : ℚ) (axis : Axis) (b : DynamicBody)
    (s : StaticBody) : (pushBody delta axis b s).width = b.width := by
  cases axis <;> by_cases h : 0 < delta <;> simp [pushBody, h]

theorem pushBody_height (delta : ℚ) (axis : Axis) (b : DynamicBody)
    (s : StaticBody) : (pushBody delta axis b s).height = b.height := by
  cases axis <;> by_cases h : 0 < delta <;> simp [pushBody, h]

theorem axisCoord_pushBody (delta : ℚ) (axis : Axis) (b : DynamicBody)
    (s : StaticBody) :
    axisCoord axis (pushBody delta axis b s) = landingCoord axis delta b s := by
  cases axis <;> by_cases h : 0 < delta <;> simp [pushBody, landingCoord, axisCoord, h]

theorem landingCoord_congr (axis : Axis) (delta : ℚ) (b b' : DynamicBody)
    (s : StaticBody) (hw : b'.width = b.width) (hh : b'.height = b.height) :
    landingCoord axis delta b' s = landingCoord axis delta b s := by
  cases axis <;> simp [landingCoord, hw, hh]

theorem landing_progress_pos (axis : Axis) (delta : ℚ) (b : DynamicBody)
    (s : StaticBody) (hdelta : 0 < delta)
    (hov : aabbOverlap b.aabb s.aabb = true) :
    landingCoord axis delta b s < axisCoord axis b := by
  rw [aabbOverlap_iff] at hov
  simp only [DynamicBody.aabb, StaticBody.aabb] at hov
  cases axis <;> simp only [landingCoord, axisCoord, if_pos hdelta]
  · linarith [hov.1]
  · linarith [hov.2.2.1]

theorem landing_progress_neg (axis : Axis) (delta : ℚ) (b : DynamicBody)
    (s : StaticBody) (hdelta : ¬ 0 < delta)
    (hov : aabbOverlap b.aabb s.aabb = true) :
    axisCoord axis b < landingCoord axis delta b s := by
  rw [aabbOverlap_iff] at hov
  simp only [DynamicBody.aabb, StaticBody.aabb] at hov
  cases axis <;> simp only [landingCoord, axisCoord, if_neg hdelta]
  · linarith [hov.2.1]
  · linarith [hov.2.2.2]

theorem scanFold_true (delta : ℚ) (axis : Axis) :
    ∀ (solids : List StaticBody) (b : DynamicBody),
      (solids.foldl (scanStep delta axis) (b, true)).2 = true := by
  intro solids
  induction solids with
  | nil => intro b; rfl
  | cons s rest ih =>
      intro b
      rw [List.foldl_cons, scanStep]
      by_cases hov : aabbOverlap b.aabb s.aabb
      · simp only [hov, if_true]
        exact ih _
      · simp only [hov, if_false]
        exact ih b

theorem scanFold_false (delta : ℚ) (axis : Axis) :
    ∀ (solids : List StaticBody) (b : DynamicBody) (c : Bool),
      (solids.foldl (scanStep delta axis) (b, c)).2 = false →
      (solids.foldl (scanStep delta axis) (b, c)).1 = b ∧ c = false ∧
      ∀ s ∈ solids, aabbOverlap b.aabb s.aabb = false := by
  intro solids
  induction solids with
  | nil =>
      intro b c h
      exact ⟨rfl, h, by simp⟩
  | cons s rest ih =>
      intro b c h
      rw [List.foldl_cons, scanStep] at h ⊢
      by_cases hov : aabbOverlap b.aabb s.aabb
      · exfalso
        simp only [hov, if_true] at h
        rw [scanFold_true delta axis rest _] at h
        exact Bool.true_eq_false ▸ (by simp at h)
      · simp only [hov, if_false] at h ⊢
        have hr := ih b c h
        refine ⟨hr.1, hr.2.1, ?_⟩
        intro t ht
        rcases List.mem_cons.1 ht with rfl | ht'
        · exact Bool.not_eq_true _ |>.symm ▸ (by simpa using hov)
        · exact hr.2.2 t ht'

theorem scanFold_progress (delta : ℚ) (axis : Axis) :
    ∀ (solids : List StaticBody) (b : DynamicBody) (c : Bool),
      (solids.foldl (scanStep delta axis) (b, c)).1.width = b.width ∧
      (solids.foldl (scanStep delta axis) (b, c)).1.height = b.height ∧
      (((solids.foldl (scanStep delta axis) (b, c)).1 = b ∧
        (solids.foldl (scanStep delta axis) (b, c)).2 = c) ∨
       ((solids.foldl (scanStep delta axis) (b, c)).2 = true ∧
        (if 0 < delta then
          axisCoord axis (solids.foldl (scanStep delta axis) (b, c)).1 < axisCoord axis b
         else
          axisCoord axis b < axisCoord axis (solids.foldl (scanStep delta axis) (b, c)).1) ∧
        ∃ s ∈ solids,
          axisCoord axis (solids.foldl (scanStep delta axis) (b, c)).1
            = landingCoord axis delta b s)) := by
  intro solids
  induction solids with
  | nil =>
      intro b c
      exact ⟨rfl, rfl, Or.inl ⟨rfl, rfl⟩⟩
  | cons s rest ih =>
      intro b c
      rw [List.foldl_cons, scanStep]
      by_cases hov : aabbOverlap b.aabb s.aabb
      · simp only [hov, if_true]
        have ihp := ih (pushBody delta axis b s) true
        refine ⟨by rw [ihp.1, pushBody_width], by rw [ihp.2.1, pushBody_height], Or.inr ?_⟩
        rcases ihp.2.2 with ⟨heq, htrue⟩ | ⟨htrue, hprog, t, ht, hland⟩
        · refine ⟨htrue, ?_, s, List.mem_cons_self _ _, ?_⟩
          · rw [heq, axisCoord_pushBody]
            by_cases hdelta : 0 < delta
            · simp only [hdelta, if_true]
              exact landing_progress_pos axis delta b s hdelta hov
            · simp only [hdelta, if_false]
              exact landing_progress_neg axis delta b s hdelta hov
          · rw [heq, axisCoord_pushBody]
        · refine ⟨htrue, ?_, t, List.mem_cons_of_mem _ ht, ?_⟩
          · by_cases hdelta : 0 < delta
            · simp only [hdelta, if_true] at hprog ⊢
              calc axisCoord axis (rest.foldl (scanStep delta axis) (pushBody delta axis b s, true)).1
                  < axisCoord axis (pushBody delta axis b s) := hprog
                _ = landingCoord axis delta b s := axisCoord_pushBody _ _ _ _
                _ < axisCoord axis b := landing_progress_pos axis delta b s hdelta hov
            · simp only [hdelta, if_false] at hprog ⊢
              calc axisCoord axis b
                  < landingCoord axis delta b s := landing_progress_neg axis delta b s hdelta hov
                _ = axisCoord axis (pushBody delta axis b s) := (axisCoord_pushBody _ _ _ _).symm
                _ < axisCoord axis (rest.foldl (scanStep delta axis) (pushBody delta axis b s, true)).1 := hprog
          · rw [hland]
            exact landingCoord_congr axis delta b (pushBody delta axis b s) t
              (pushBody_width _ _ _ _) (pushBody_height _ _ _ _)
      · simp only [hov, if_false]
        have ihp := ih b c
        refine ⟨ihp.1, ihp.2.1, ?_⟩
        rcases ihp.2.2 with h | ⟨htrue, hprog, t, ht, hland⟩
        · exact Or.inl h
        · exact Or.inr ⟨htrue, hprog, t, List.mem_cons_of_mem _ ht, hland⟩

theorem mem_foldl_setAdd {α : Type} [DecidableEq α] :
    ∀ (l acc : List α) (x : α),
      x ∈ l.foldl setAdd acc ↔ x ∈ acc ∨ x ∈ l := by
  intro l
  induction l with
  | nil => intro acc x; simp
  | cons a rest ih =>
      intro acc x
      rw [List.foldl_cons, ih]
      rw [mem_setAdd]
      simp only [List.mem_cons]
      tauto

theorem mem_queryFold {T : Type} [DecidableEq T]
    (cells : List ((ℤ × ℤ) × List T)) :
    ∀ (ks : List (ℤ × ℤ)) (acc : List T) (x : T),
      x ∈ ks.foldl (queryCellStep cells) acc ↔
        x ∈ acc ∨ ∃ k ∈ ks, ∃ b, lookupEntry cells k = some b ∧ x ∈ b := by
  intro ks
  induction ks with
  | nil => intro acc x; simp
  | cons k rest ih =>
      intro acc x
      rw [List.foldl_cons, ih]
      have hstep : x ∈ queryCellStep cells acc k ↔
          x ∈ acc ∨ ∃ b, lookupEntry cells k = some b ∧ x ∈ b := by
        rw [queryCellStep]
        cases hl : lookupEntry cells k with
        | none => simp
        | some bucket =>
            rw [mem_foldl_setAdd]
            constructor
            · rintro (h | h)
              · exact Or.inl h
              · exact Or.inr ⟨bucket, rfl, h⟩
            · rintro (h | ⟨b, hb, hx⟩)
              · exact Or.inl h
              · cases hb
                exact Or.inr hx
      rw [hstep]
      simp only [List.mem_cons]
      constructor
      · rintro ((h | ⟨b, hb, hx⟩) | ⟨k', hk', b, hb, hx⟩)
        · exact Or.inl h
        · exact Or.inr ⟨k, Or.inl rfl, b, hb, hx⟩
        · exact Or.inr ⟨k', Or.inr hk', b, hb, hx⟩
      · rintro (h | ⟨k', hk' | hk', b, hb, hx⟩)
        · exact Or.inl (Or.inl h)
        · exact Or.inl (Or.inr ⟨b, hk' ▸ hb, hx⟩)
        · exact Or.inr ⟨k', hk', b, hb, hx⟩

theorem mem_query {T : Type} [DecidableEq T] (h : SpatialHash T) (area : AABB)
    (x : T) :
    x ∈ h.query area ↔
      ∃ k ∈ keysFor h.cellSize area, ∃ b, lookupEntry h.cells k = some b ∧ x ∈ b := by
  rw [SpatialHash.query, mem_queryFold]
  simp

theorem mem_allItems_of_lookup {T : Type} [DecidableEq T] (h : SpatialHash T)
    (k : ℤ × ℤ) (b : List T) (x : T)
    (hl : lookupEntry h.cells k = some b) (hx : x ∈ b) : x ∈ h.allItems := by
  rw [SpatialHash.allItems, List.mem_flatten]
  exact ⟨b, List.mem_map_of_mem Prod.snd (lookupEntry_mem h.cells k b hl), hx⟩

theorem query_subset_allItems {T : Type} [DecidableEq T] (h : SpatialHash T)
    (area : AABB) (x : T) (hx : x ∈ h.query area) : x ∈ h.allItems := by
  rcases (mem_query h area x).1 hx with ⟨k, _, b, hb, hxb⟩
  exact mem_allItems_of_lookup h k b x hb hxb

theorem filter_length_le {α : Type} (p q : α → Bool)
    (hsub : ∀ x, q x = true → p x = true) :
    ∀ (l : List α), (l.filter q).length ≤ (l.filter p).length := by
  intro l
  induction l with
  | nil => simp
  | cons a rest ih =>
      by_cases hq : q a
      · rw [List.filter_cons_of_pos hq, List.filter_cons_of_pos (hsub a hq)]
        simpa using ih
      · rw [List.filter_cons_of_neg (by simpa using hq)]
        by_cases hp : p a
        · rw [List.filter_cons_of_pos hp]
          exact le_trans ih (Nat.le_succ _)
        · rw [List.filter_cons_of_neg (by simpa using hp)]
          exact ih

theorem filter_length_lt {α : Type} (p q : α → Bool)
    (hsub : ∀ x, q x = true → p x = true) :
    ∀ (l : List α) (x0 : α), x0 ∈ l → p x0 = true → q x0 = false →
      (l.filter q).length < (l.filter p).length := by
  intro l
  induction l with
  | nil => intro x0 h; simp at h
  | cons a rest ih =>
      intro x0 hx0 hp hq
      rcases List.mem_cons.1 hx0 with rfl | hx0'
      · rw [List.filter_cons_of_neg (by simp [hq]), List.filter_cons_of_pos hp]
        exact Nat.lt_succ_of_le (filter_length_le p q hsub rest)
      · by_cases hqa : q a
        · rw [List.filter_cons_of_pos hqa, List.filter_cons_of_pos (hsub a hqa)]
          simpa using ih x0 hx0' hp hq
        · rw [List.filter_cons_of_neg (by simpa using hqa)]
          by_cases hpa : p a
          · rw [List.filter_cons_of_pos hpa]
            exact Nat.lt_succ_of_le (le_of_lt (ih x0 hx0' hp hq))
          · rw [List.filter_cons_of_neg (by simpa using hpa)]
            exact ih x0 hx0' hp hq

theorem resolvePass_false (h : SpatialHash StaticBody) (delta : ℚ) (axis : Axis)
    (b : DynamicBody) (hp : (resolvePass h delta axis b).2 = false) :
    (resolvePass h delta axis b).1 = b ∧
    ∀ s ∈ h.query b.aabb, aabbOverlap b.aabb s.aabb = false := by
  have hs := scanFold_false delta axis (h.query b.aabb) b false hp
  exact ⟨hs.1, hs.2.2⟩

theorem resolvePass_true (h : SpatialHash StaticBody) (delta : ℚ) (axis : Axis)
    (b : DynamicBody) (hp : (resolvePass h delta axis b).2 = true) :
    (resolvePass h delta axis b).1.width = b.width ∧
    (resolvePass h delta axis b).1.height = b.height ∧
    (if 0 < delta then
      axisCoord axis (resolvePass h delta axis b).1 < axisCoord axis b
     else
      axisCoord axis b < axisCoord axis (resolvePass h delta axis b).1) ∧
    ∃ s ∈ h.query b.aabb,
      axisCoord axis (resolvePass h delta axis b).1 = landingCoord axis delta b s := by
  have hs := scanFold_progress delta axis (h.query b.aabb) b false
  refine ⟨hs.1, hs.2.1, ?_⟩
  rcases hs.2.2 with ⟨_, hc⟩ | ⟨_, hprog, s, hsq, hland⟩
  · have hp2 : (List.foldl (scanStep delta axis) (b, false) (h.query b.aabb)).2
        = true := hp
    rw [hp2] at hc
    simp at hc
  · exact ⟨hprog, s, hsq, hland⟩

theorem loopMeasure_decrease (h : SpatialHash StaticBody) (delta : ℚ)
    (axis : Axis) (b : DynamicBody)
    (hp : (resolvePass h delta axis b).2 = true) :
    loopMeasure h axis delta (resolvePass h delta axis b).1
      < loopMeasure h axis delta b := by
  obtain ⟨hw, hh, hprog, s0, hs0q, hland⟩ := resolvePass_true h delta axis b hp
  have hs0 : s0 ∈ h.allItems := query_subset_allItems h _ s0 hs0q
  have hcongr : ∀ s, landingCoord axis delta (resolvePass h delta axis b).1 s
      = landingCoord axis delta b s :=
    fun s => landingCoord_congr axis delta b _ s hw hh
  by_cases hdelta : 0 < delta
  · rw [loopMeasure, if_pos hdelta, loopMeasure, if_pos hdelta]
    simp only [if_pos hdelta] at hprog
    refine filter_length_lt _ _ ?_ h.allItems s0 hs0 ?_ ?_
    · intro s hs
      rw [decide_eq_true_eq] at hs
      rw [decide_eq_true_eq]
      rw [hcongr s] at hs
      exact lt_trans hs hprog
    · rw [decide_eq_true_eq, ← hland]
      exact hprog
    · rw [decide_eq_false_iff_not, hcongr s0, ← hland]
      exact lt_irrefl _
  · rw [loopMeasure, if_neg hdelta, loopMeasure, if_neg hdelta]
    simp only [if_neg hdelta] at hprog
    refine filter_length_lt _ _ ?_ h.allItems s0 hs0 ?_ ?_
    · intro s hs
      rw [decide_eq_true_eq] at hs
      rw [decide_eq_true_eq]
      rw [hcongr s] at hs
      exact lt_trans hprog hs
    · rw [decide_eq_true_eq, ← hland]
      exact hprog
    · rw [decide_eq_false_iff_not, hcongr s0, ← hland]
      exact lt_irrefl _

theorem resolveLoop_of_pass_false (h : SpatialHash StaticBody) (delta : ℚ)
    (axis : Axis) (b : DynamicBody) (hp : (resolvePass h delta axis b).2 = false)
    (f : ℕ) : resolveLoop h delta axis (f + 1) b = b := by
  have hfix := (resolvePass_false h delta axis b hp).1
  rw [resolveLoop]
  simp only [hp, Bool.false_eq_true, if_false]
  exact hfix

theorem resolveLoop_of_pass_true (h : SpatialHash StaticBody) (delta : ℚ)
    (axis : Axis) (b : DynamicBody) (hp : (resolvePass h delta axis b).2 = true)
    (f : ℕ) :
    resolveLoop h delta axis (f + 1) b
      = resolveLoop h delta axis f (resolvePass h delta axis b).1 := by
  rw [resolveLoop]
  simp only [hp, if_true]

theorem resolveLoop_stable (h : SpatialHash StaticBody) (delta : ℚ) (axis : Axis) :
    ∀ (n : ℕ) (b : DynamicBody), loopMeasure h axis delta b ≤ n →
      (∀ f, n < f → resolveLoop h delta axis f b = resolveLoop h delta axis (n + 1) b) ∧
      (resolvePass h delta axis (resolveLoop h delta axis (n + 1) b)).2 = false ∧
      (resolveLoop h delta axis (n + 1) b).width = b.width ∧
      (resolveLoop h delta axis (n + 1) b).height = b.height := by
  intro n
  induction n with
  | zero =>
      intro b hm
      by_cases hp : (resolvePass h delta axis b).2 = true
      · exact absurd (lt_of_lt_of_le (loopMeasure_decrease h delta axis b hp) hm)
          (Nat.not_lt_zero _)
      · have hp' : (resolvePass h delta axis b).2 = false := by simpa using hp
        have hloop := resolveLoop_of_pass_false h delta axis b hp'
        refine ⟨?_, ?_, ?_, ?_⟩
        · intro f hf
          obtain ⟨g, rfl⟩ := Nat.exists_eq_add_of_lt hf
          rw [show 0 + g + 1 = g + 1 by omega, hloop g, hloop 0]
        · rw [hloop 0]
          simpa using hp
        · rw [hloop 0]
        · rw [hloop 0]
  | succ n ih =>
      intro b hm
      by_cases hp : (resolvePass h delta axis b).2 = true
      · have hm' : loopMeasure h axis delta (resolvePass h delta axis b).1 ≤ n :=
          Nat.lt_succ_iff.1 (lt_of_lt_of_le (loopMeasure_decrease h delta axis b hp) hm)
        have ihb := ih (resolvePass h delta axis b).1 hm'
        have hwidth := (resolvePass_true h delta axis b hp).1
        have hheight := (resolvePass_true h delta axis b hp).2.1
        have hstep := resolveLoop_of_pass_true h delta axis b hp
        refine ⟨?_, ?_, ?_, ?_⟩
        · intro f hf
          obtain ⟨g, rfl⟩ := Nat.exists_eq_add_of_lt hf
          rw [show n + 1 + g + 1 = (n + 1 + g) + 1 by omega, hstep (n + 1 + g),
            hstep (n + 1)]
          exact ihb.1 (n + 1 + g) (by omega)
        · rw [hstep (n + 1)]
          exact ihb.2.1
        · rw [hstep (n + 1), ihb.2.2.1, hwidth]
        · rw [hstep (n + 1), ihb.2.2.2, hheight]
      · have hp' : (resolvePass h delta axis b).2 = false := by simpa using hp
        have hloop := resolveLoop_of_pass_false h delta axis b hp'
        refine ⟨?_, ?_, ?_, ?_⟩
        · intro f hf
          obtain ⟨g, rfl⟩ := Nat.exists_eq_add_of_lt hf
          rw [show n + 1 + g + 1 = (n + 1 + g) + 1 by omega, hloop (n + 1 + g),
            hloop (n + 1)]
        · rw [hloop (n + 1)]
          simpa using hp
        · rw [hloop (n + 1)]
        · rw [hloop (n + 1)]

theorem moveBody_width (axis : Axis) (delta : ℚ) (b : DynamicBody) :
    (moveBody axis delta b).width = b.width := by
  cases axis <;> rfl

theorem moveBody_height (axis : Axis) (delta : ℚ) (b : DynamicBody) :
    (moveBody axis delta b).height = b.height := by
  cases axis <;> rfl

theorem overlap_shared_key (cs : ℚ) (a b : AABB) (hcs : 0 < cs)
    (haw : 0 ≤ a.width) (hah : 0 ≤ a.height)
    (hbw : 0 ≤ b.width) (hbh : 0 ≤ b.height)
    (hov : aabbOverlap a b = true) :
    ∃ k : ℤ × ℤ, k ∈ keysFor cs a ∧ k ∈ keysFor cs b := by
  rw [aabbOverlap_iff] at hov
  obtain ⟨h1, h2, h3, h4⟩ := hov
  have hdiv : ∀ p q : ℚ, p ≤ q → p / cs ≤ q / cs := by
    intro p q hpq
    gcongr
  refine ⟨(⌊max a.x b.x / cs⌋, ⌊max a.y b.y / cs⌋), ?_, ?_⟩ <;> rw [mem_keysFor]
  · refine ⟨?_, ?_, ?_, ?_⟩
    · exact Int.floor_le_floor (hdiv _ _ (le_max_left _ _))
    · exact Int.floor_le_floor (hdiv _ _ (max_le (by linarith) h1.le))
    · exact Int.floor_le_floor (hdiv _ _ (le_max_left _ _))
    · exact Int.floor_le_floor (hdiv _ _ (max_le (by linarith) h3.le))
  · refine ⟨?_, ?_, ?_, ?_⟩
    · exact Int.floor_le_floor (hdiv _ _ (le_max_right _ _))
    · exact Int.floor_le_floor (hdiv _ _ (max_le h2.le (by linarith)))
    · exact Int.floor_le_floor (hdiv _ _ (le_max_right _ _))
    · exact Int.floor_le_floor (hdiv _ _ (max_le h4.le (by linarith)))

/-- C1: for every dynamic body and every finite set `S` of pairwise
non-overlapping static bodies fully indexed by the world's spatial hash,
the per-axis overlap-and-push loop of `resolveAxis` terminates — the
fuelled embedding is independent of the fuel from the budget
`allItems.length + 1` on, and the final pass exits with `collided =
false` rather than by fuel exhaustion — and the resulting body overlaps
no static body of `S`; in particular a body wedged against two statics on
the same axis ends overlapping neither. -/
theorem resolveAxis_fixed_point (w : PhysicsWorld) (body : DynamicBody)
    (delta : ℚ) (axis : Axis) (S : List StaticBody)
    (hcs : 0 < w.spatialHash.cellSize)
    (hsup : hashSupports w.spatialHash S)
    (hbw : 0 ≤ body.width) (hbh : 0 ≤ body.height)
    (hS : ∀ s ∈ S, 0 ≤ s.width ∧ 0 ≤ s.height)
    (hpair : S.Pairwise (fun s t => aabbOverlap s.aabb t.aabb = false))
    (hdelta : delta ≠ 0) :
    (∀ fuel, w.spatialHash.allItems.length + 1 ≤ fuel →
      resolveLoop w.spatialHash delta axis fuel (moveBody axis delta body)
        = resolveAxis w body delta axis) ∧
    (resolvePass w.spatialHash delta axis (resolveAxis w body delta axis)).2
      = false ∧
    ∀ s ∈ S, aabbOverlap (resolveAxis w body delta axis).aabb s.aabb = false := by
  have hres : resolveAxis w body delta axis
      = resolveLoop w.spatialHash delta axis (w.spatialHash.allItems.length + 1)
          (moveBody axis delta body) := by
    rw [resolveAxis, if_neg hdelta]
  have hmeas : loopMeasure w.spatialHash axis delta (moveBody axis delta body)
      ≤ w.spatialHash.allItems.length := by
    rw [loopMeasure]
    split <;> exact List.length_filter_le _ _
  have hst := resolveLoop_stable w.spatialHash delta axis
    w.spatialHash.allItems.length (moveBody axis delta body) hmeas
  refine ⟨?_, ?_, ?_⟩
  · intro fuel hf
    rw [hres]
    exact hst.1 fuel (by omega)
  · rw [hres]
    exact hst.2.1
  · intro s hsS
    rw [hres]
    have hBw : (resolveLoop w.spatialHash delta axis
        (w.spatialHash.allItems.length + 1) (moveBody axis delta body)).width
        = body.width := by
      rw [hst.2.2.1, moveBody_width]
    have hBh : (resolveLoop w.spatialHash delta axis
        (w.spatialHash.allItems.length + 1) (moveBody axis delta body)).height
        = body.height := by
      rw [hst.2.2.2, moveBody_height]
    by_contra hov
    have hov' : aabbOverlap (resolveLoop w.spatialHash delta axis
        (w.spatialHash.allItems.length + 1) (moveBody axis delta body)).aabb
        s.aabb = true := by
      simpa using hov
    obtain ⟨k, hkB, hks⟩ := overlap_shared_key w.spatialHash.cellSize _ s.aabb hcs
      (by simp only [DynamicBody.aabb]; rw [hBw]; exact hbw)
      (by simp only [DynamicBody.aabb]; rw [hBh]; exact hbh)
      (hS s hsS).1 (hS s hsS).2 hov'
    have hbuck := hsup.1 s hsS k hks
    rw [SpatialHash.bucketOf] at hbuck
    cases hl : lookupEntry w.spatialHash.cells k with
    | none =>
        rw [hl] at hbuck
        simp at hbuck
    | some bkt =>
        rw [hl] at hbuck
        simp only [Option.getD_some] at hbuck
        have hq : s ∈ w.spatialHash.query (resolveLoop w.spatialHash delta axis
            (w.spatialHash.allItems.length + 1) (moveBody axis delta body)).aabb :=
          (mem_query _ _ s).2 ⟨k, hkB, bkt, hl, hbuck⟩
        have hnone := (resolvePass_false w.spatialHash delta axis _ hst.2.1).2 s hq
        rw [hnone] at hov'
        simp at hov'

/-- C1 witness: the wedged scenario — after `resolveAxis` with `delta =
20` the body overlaps neither of the two statics it was wedged
between. -/
theorem resolveAxis_fixed_point_witness :
    aabbOverlap (resolveAxis wedgeWorld wedgeBody 20 Axis.x).aabb
      (StaticBody.mk 1 20 0 10 10).aabb = false ∧
    aabbOverlap (resolveAxis wedgeWorld wedgeBody 20 Axis.x).aabb
      (StaticBody.mk 2 32 0 10 10).aabb = false := by
  have main := resolveAxis_fixed_point wedgeWorld wedgeBody 20 Axis.x
    [StaticBody.mk 1 20 0 10 10, StaticBody.mk 2 32 0 10 10]
    (by norm_num [wedgeWorld, createPhysicsWorld, addStaticBody, SpatialHash.add])
    (by
      constructor
      · norm_num [wedgeWorld, createPhysicsWorld, addStaticBody, SpatialHash.add,
          addCellStep, keysFor, rangeInts, rangeIntsAux, setEntry, lookupEntry,
          setAdd, SpatialHash.bucketOf, StaticBody.aabb]
      · norm_num [wedgeWorld, createPhysicsWorld, addStaticBody, SpatialHash.add,
          addCellStep, keysFor, rangeInts, rangeIntsAux, setEntry, lookupEntry,
          setAdd, SpatialHash.bucketOf, StaticBody.aabb])
    (by norm_num [wedgeBody]) (by norm_num [wedgeBody])
    (by norm_num)
    (by norm_num [List.pairwise_cons, aabbOverlap, StaticBody.aabb])
    (by norm_num)
  exact ⟨main.2.2 _ (by simp), main.2.2 _ (by simp)⟩

end GameCore
